import Mathlib

/-!
Verification development for the JobsServer repository: a shallow embedding of
the resource-listing pipeline (fetch, filter, sort, paginate, enrich), the
category-key relocation logic of the update handlers, the delete handlers, the
logo-enrichment resolver, and the generative-scoring fallback, together with
theorems settling the specification claims about them.

Items of the DynamoDB document store are modelled as JSON-like objects
(`Obj` = insertion-ordered association lists of string keys and `Val` values);
a table is a list of items.  Array-valued attributes in this repository are
always arrays of strings (tags, batch, skills), so `Val.arr` carries a
`List String`.  External effects (the HTTP logo lookup, the generative-text
call, `Date.parse`, `Math.random`, the clock) are modelled as explicit oracle
parameters.
-/

set_option autoImplicit false

namespace JobsServer

/-- JSON-like attribute values as stored by the DynamoDB document client. -/
inductive Val where
  | str : String → Val
  | num : Int → Val
  | bool : Bool → Val
  | arr : List String → Val
  | null : Val
deriving DecidableEq

/-- A JavaScript object / DynamoDB item: insertion-ordered key-value pairs. -/
def Obj : Type := List (String × Val)

instance : DecidableEq Obj := by
  unfold Obj
  infer_instance

instance : Membership (String × Val) Obj := by
  unfold Obj
  infer_instance

/-- Property read `o[k]`: first binding of key `k` (JSON objects bind each key once). -/
def Obj.get : Obj → String → Option Val
  | [], _ => none
  | (k', v') :: rest, k => if k' = k then some v' else Obj.get rest k

/-- Property write `o[k] = v`: overwrite in place, or append a new binding. -/
def Obj.set : Obj → String → Val → Obj
  | [], k, v => [(k, v)]
  | (k', v') :: rest, k, v =>
      if k' = k then (k, v) :: rest else (k', v') :: Obj.set rest k v

/-- `Object.keys`, in insertion order. -/
def Obj.keys (o : Obj) : List String := o.map Prod.fst

/-- JS spread `{...a, ...b}`: `b`'s bindings override `a`'s. -/
def Obj.merge (a b : Obj) : Obj := b.foldl (fun acc kv => acc.set kv.1 kv.2) a

/-- JS truthiness of a value. -/
def Val.truthy : Val → Bool
  | .str s => s ≠ ""
  | .num n => n ≠ 0
  | .bool b => b
  | .arr _ => true
  | .null => false

theorem Obj.get_set_same (o : Obj) (k : String) (v : Val) :
    (o.set k v).get k = some v := by
  induction o with
  | nil => simp [Obj.set, Obj.get]
  | cons kv rest ih =>
      obtain ⟨k', v'⟩ := kv
      by_cases h : k' = k <;> simp [Obj.set, Obj.get, h, ih]

theorem Obj.get_set_ne (o : Obj) (k k' : String) (v : Val) (h : k ≠ k') :
    (o.set k v).get k' = o.get k' := by
  induction o with
  | nil => simp [Obj.set, Obj.get, h]
  | cons kv rest ih =>
      obtain ⟨k₀, v₀⟩ := kv
      by_cases h₀ : k₀ = k
      · subst h₀
        simp [Obj.set, Obj.get, h]
      · simp only [Obj.set, if_neg h₀]
        by_cases h₁ : k₀ = k' <;> simp [Obj.get, h₁, ih]

/-- Setting a key to the value it already has is the identity (needed for
no-op-patch reasoning). -/
theorem Obj.set_get_id (o : Obj) (k : String) (v : Val) (h : o.get k = some v) :
    o.set k v = o := by
  induction o with
  | nil => simp [Obj.get] at h
  | cons kv rest ih =>
      obtain ⟨k', v'⟩ := kv
      by_cases hk : k' = k
      · subst hk
        simp only [Obj.get, if_true, eq_self_iff_true, Option.some.injEq] at h
        simp [Obj.set, h]
      · simp only [Obj.get, if_neg hk] at h
        simp [Obj.set, hk, ih h]

/-- Merging an object that has no binding of `k` leaves `k` unchanged. -/
theorem Obj.merge_get_of_not_mem (a b : Obj) (k : String)
    (habs : b.get k = none) :
    (a.merge b).get k = a.get k := by
  induction b generalizing a with
  | nil => rfl
  | cons kv rest ih =>
      obtain ⟨k', v'⟩ := kv
      simp only [Obj.get] at habs
      by_cases hk : k' = k
      · simp [hk] at habs
      · simp only [if_neg hk] at habs
        show ((a.set k' v').merge rest).get k = a.get k
        rw [ih _ habs, Obj.get_set_ne _ _ _ _ hk]

theorem Obj.get_none_of_not_mem_keys (o : Obj) (k : String) (h : k ∉ o.keys) :
    o.get k = none := by
  induction o with
  | nil => rfl
  | cons kv rest ih =>
      obtain ⟨k', v'⟩ := kv
      simp only [Obj.keys, List.map_cons, List.mem_cons, not_or] at h
      rw [Obj.get, if_neg (Ne.symm h.1)]
      exact ih h.2

theorem Obj.merge_get_of_mem (a b : Obj) (k : String) (v : Val)
    (hnd : b.keys.Nodup) (hmem : b.get k = some v) :
    (a.merge b).get k = some v := by
  induction b generalizing a with
  | nil => simp [Obj.get] at hmem
  | cons kv rest ih =>
      obtain ⟨k', v'⟩ := kv
      simp only [Obj.keys, List.map_cons, List.nodup_cons] at hnd
      by_cases hk : k' = k
      · subst hk
        simp only [Obj.get, if_true, eq_self_iff_true, Option.some.injEq] at hmem
        show ((a.set k' v').merge rest).get k' = some v
        have hrest : Obj.get rest k' = none :=
          Obj.get_none_of_not_mem_keys rest k' hnd.1
        rw [Obj.merge_get_of_not_mem _ _ _ hrest, Obj.get_set_same, hmem]
      · simp only [Obj.get, if_neg hk] at hmem
        exact ih (a.set k' v') hnd.2 hmem

/-! ## Document-store primitives

A table is a list of items.  `putItem` replaces the item with the same
`(partitionKey, sortKey)` pair (DynamoDB `PutCommand` semantics); `deleteKey`
removes the item addressed by a concrete key pair; a scan with a filter
expression is `List.filter`. -/

/-- A DynamoDB table. -/
def Store : Type := List Obj

instance : DecidableEq Store := by
  unfold Store
  infer_instance

instance : Membership Obj Store := by
  unfold Store
  infer_instance

/-- Two items collide on the primary key `(pkF, skF)`. -/
def sameKey (pkF skF : String) (a b : Obj) : Bool :=
  a.get pkF = b.get pkF && a.get skF = b.get skF

/-- `PutCommand`: unconditionally write `item`, replacing any item with the
same primary key. -/
def putItem (pkF skF : String) (store : Store) (item : Obj) : Store :=
  store.filter (fun it => !sameKey pkF skF it item) ++ [item]

/-- `DeleteCommand` with `Key = (pkv, skv)`. -/
def deleteKey (pkF skF : String) (store : Store) (pkv skv : Option Val) : Store :=
  store.filter (fun it => !(it.get pkF = pkv && it.get skF = skv))

/-- `hay.includes needle` on character lists (JS `String.prototype.includes`):
the needle occurs as a contiguous block. -/
def charsInclude (hay needle : List Char) : Bool :=
  match hay with
  | [] => needle.isEmpty
  | _ :: rest => needle.isPrefixOf hay || charsInclude rest needle

/-- `String.prototype.includes`. -/
def strIncludes (hay needle : String) : Bool :=
  charsInclude hay.toList needle.toList

/-- DynamoDB `contains(attr, v)`: substring test on strings, membership on
string lists (the only list shape this repository stores). -/
def dynContains (attr : Option Val) (v : String) : Bool :=
  match attr with
  | some (.str s) => strIncludes s v
  | some (.arr l) => l.contains v
  | _ => false

/-- DynamoDB `size(attr)` for the shapes this repository stores. -/
def dynSize : Val → Option Nat
  | .str s => some s.length
  | .arr l => some l.length
  | _ => none

/-! ## JS `Array.prototype.sort` with a numeric comparator

Per the ECMAScript SortCompare step, a comparator result of `NaN` is coerced
to `+0`, and since ES2019 the sort is stable.  We model the comparator's
result as `Option Int` (`none` = `NaN`, coerced to `0`) and the sort as a
stable insertion sort: an element is inserted before the first element it
compares `≤ 0` against, which preserves the original relative order of
elements that compare equal. -/

/-- `new Date(v).getTime()` for an attribute value, through the external
`Date.parse` oracle `dateOf`; a missing attribute (`undefined`) or a
non-string non-number value gives an invalid date (`none` = `NaN`). -/
def dateNum (dateOf : String → Option Int) : Option Val → Option Int
  | some (.str s) => dateOf s
  | some (.num n) => some n
  | _ => none

/-- ECMAScript SortCompare: a `NaN` comparator result counts as `0`. -/
def sortCompareVal : Option Int → Int
  | some z => z
  | none => 0

/-- Stable insertion of `x` (originally positioned after every element of the
list) under `le x y = (comparator x y ≤ 0)`. -/
def jsInsert {α : Type} (le : α → α → Bool) (x : α) : List α → List α
  | [] => [x]
  | y :: ys => if le x y then x :: y :: ys else y :: jsInsert le x ys

/-- Stable sort (ES2019+ `Array.prototype.sort`). -/
def jsSort {α : Type} (le : α → α → Bool) : List α → List α
  | [] => []
  | x :: xs => jsInsert le x (jsSort le xs)

theorem length_jsInsert {α : Type} (le : α → α → Bool) (x : α) (l : List α) :
    (jsInsert le x l).length = l.length + 1 := by
  induction l with
  | nil => rfl
  | cons y ys ih =>
      by_cases h : le x y <;> simp [jsInsert, h, ih]

theorem length_jsSort {α : Type} (le : α → α → Bool) (l : List α) :
    (jsSort le l).length = l.length := by
  induction l with
  | nil => rfl
  | cons x xs ih => simp [jsSort, length_jsInsert, ih]

theorem mem_jsInsert {α : Type} (le : α → α → Bool) (x y : α) (l : List α) :
    y ∈ jsInsert le x l ↔ y = x ∨ y ∈ l := by
  induction l with
  | nil => simp [jsInsert]
  | cons z zs ih =>
      by_cases h : le x z
      · simp [jsInsert, h]
      · simp [jsInsert, h, ih]
        tauto

theorem mem_jsSort {α : Type} (le : α → α → Bool) (x : α) (l : List α) :
    x ∈ jsSort le l ↔ x ∈ l := by
  induction l with
  | nil => simp [jsSort]
  | cons y ys ih => simp [jsSort, mem_jsInsert, ih]

theorem pairwise_jsInsert {α : Type} (le : α → α → Bool) (x : α) (l : List α)
    (htot : ∀ b ∈ l, le x b ∨ le b x)
    (htrans : ∀ b ∈ l, ∀ c ∈ l, le x b → le b c → le x c)
    (hl : l.Pairwise (fun a b => le a b)) :
    (jsInsert le x l).Pairwise (fun a b => le a b) := by
  induction l with
  | nil => simp [jsInsert]
  | cons y ys ih =>
      rcases List.pairwise_cons.mp hl with ⟨hyb, hys⟩
      by_cases h : le x y
      · simp only [jsInsert, if_pos h]
        refine List.Pairwise.cons ?_ hl
        intro b hb
        rcases List.mem_cons.mp hb with hb | hb
        · subst hb
          exact h
        · exact htrans y (List.mem_cons_self _ _) b (List.mem_cons_of_mem _ hb)
            h (hyb b hb)
      · simp only [jsInsert, if_neg h]
        refine List.Pairwise.cons ?_ ?_
        · intro b hb
          rcases (mem_jsInsert le x b ys).mp hb with hb | hb
          · subst hb
            rcases htot y (List.mem_cons_self _ _) with hxy | hyx
            · exact absurd hxy h
            · exact hyx
          · exact hyb b hb
        · exact ih (fun b hb => htot b (List.mem_cons_of_mem _ hb))
            (fun b hb c hc => htrans b (List.mem_cons_of_mem _ hb)
              c (List.mem_cons_of_mem _ hc)) hys

theorem pairwise_jsSort {α : Type} (le : α → α → Bool) (l : List α)
    (htot : ∀ a ∈ l, ∀ b ∈ l, le a b ∨ le b a)
    (htrans : ∀ a ∈ l, ∀ b ∈ l, ∀ c ∈ l, le a b → le b c → le a c) :
    (jsSort le l).Pairwise (fun a b => le a b) := by
  induction l with
  | nil => simp [jsSort]
  | cons x xs ih =>
      have hxmem : x ∈ x :: xs := List.mem_cons_self _ _
      refine pairwise_jsInsert le x (jsSort le xs) ?_ ?_ ?_
      · intro b hb
        exact htot x hxmem b
          (List.mem_cons_of_mem _ ((mem_jsSort le b xs).mp hb))
      · intro b hb c hc hxb hbc
        exact htrans x hxmem
          b (List.mem_cons_of_mem _ ((mem_jsSort le b xs).mp hb))
          c (List.mem_cons_of_mem _ ((mem_jsSort le c xs).mp hc)) hxb hbc
      · exact ih (fun a ha b hb => htot a (List.mem_cons_of_mem _ ha)
            b (List.mem_cons_of_mem _ hb))
          (fun a ha b hb c hc => htrans a (List.mem_cons_of_mem _ ha)
            b (List.mem_cons_of_mem _ hb) c (List.mem_cons_of_mem _ hc))

/-! ## The listing pipeline

`jobsController.getJobs`, `sarkariJobsController.getSarkariJobs`,
`internshipsController.getAllInternships` and
`walkingController.getAllWalking`, modelled end to end: server-side filter
expression, in-process sort, in-process search filter, pagination slice, and
(for walking) logo enrichment.  Query parameters arrive as `Option String`
(`none` = absent); the code's `if (param)` truthiness checks are modelled
explicitly, so `some ""` behaves like the empty string does in JS. -/

/-- `s.toLowerCase()` as a character list. -/
def lowerChars (s : String) : List Char := s.toList.map Char.toLower

/-- The character class kept by `replace(/[^a-z0-9 ]/gi, '')` after
lower-casing. -/
def keepAlnumSpace (c : Char) : Bool :=
  (('a' ≤ c && c ≤ 'z') || ('0' ≤ c && c ≤ '9')) || c = ' '

/-- `replace(/[^a-z0-9 ]/gi, '')` on already-lower-cased text. -/
def stripNonAlnum (cs : List Char) : List Char := cs.filter keepAlnumSpace

/-- `String.prototype.trim`; after `stripNonAlnum` the only whitespace left is
the space character. -/
def trimSpaces (cs : List Char) : List Char :=
  ((cs.dropWhile (· = ' ')).reverse.dropWhile (· = ' ')).reverse

/-- One candidate field of the `getJobs` search:
`field && field.toLowerCase().replace(/[^a-z0-9 ]/gi, '').trim().includes(normalizedSearch)`
(the fields searched, `role` and `companyName`, are strings in this store). -/
def jobsFieldMatch (field : Option Val) (normalizedSearch : List Char) : Bool :=
  match field with
  | some (.str s) =>
      s ≠ "" && charsInclude (trimSpaces (stripNonAlnum (lowerChars s))) normalizedSearch
  | _ => false

/-- The in-process search filter of `jobsController.getJobs`. -/
def jobsSearchPred (searchTerm : String) (job : Obj) : Bool :=
  let normalizedSearch := stripNonAlnum (lowerChars searchTerm)
  jobsFieldMatch (job.get "role") normalizedSearch ||
    jobsFieldMatch (job.get "companyName") normalizedSearch

/-- One candidate field of the simple searches
(`field && field.toLowerCase().includes(search)`). -/
def lcFieldIncludes (field : Option Val) (search : List Char) : Bool :=
  match field with
  | some (.str s) => s ≠ "" && charsInclude (lowerChars s) search
  | _ => false

/-- The `FilterExpression` built by `getJobs` (status, plus one clause per
supplied parameter; `batch = "Not Mentioned"` is the presence/absence
sentinel). -/
def jobsScanPred (category location batch tags role : Option String)
    (job : Obj) : Bool :=
  (job.get "status" == some (.str "active")) &&
  (match category with
    | none => true
    | some c => c = "" || job.get "category" == some (.str c)) &&
  (match location with
    | none => true
    | some l => l = "" || dynContains (job.get "location") l) &&
  (match batch with
    | none => true
    | some b =>
        if b = "" then true
        else if b = "Not Mentioned" then
          job.get "batch" == none ||
            (match job.get "batch" with
              | some v => dynSize v == some 0
              | none => false)
        else dynContains (job.get "batch") b) &&
  (match tags with
    | none => true
    | some t => t = "" || dynContains (job.get "tags") t) &&
  (match role with
    | none => true
    | some r => r = "" || job.get "role" == some (.str r))

/-- Comparator ordering of the recency sorts
`(a, b) => new Date(b.<field>) - new Date(a.<field>)`: `a` may stay before `b`
iff the comparator value is `≤ 0` (with `NaN` coerced to `0`). -/
def recencyLe (dateOf : String → Option Int) (field : String) (a b : Obj) : Bool :=
  sortCompareVal
    (match dateNum dateOf (b.get field), dateNum dateOf (a.get field) with
      | some tb, some ta => some (tb - ta)
      | _, _ => none) ≤ 0

/-- `x.createdAt || 0` fed to `new Date`: any falsy value becomes epoch `0`. -/
def dateNumOrZero (dateOf : String → Option Int) : Option Val → Option Int
  | none => some 0
  | some w => if w.truthy then dateNum dateOf (some w) else some 0

/-- Comparator ordering of `getSarkariJobs` / `getSarkariResults`:
`(a, b) => new Date(b.createdAt || 0) - new Date(a.createdAt || 0)`. -/
def sarkariLe (dateOf : String → Option Int) (a b : Obj) : Bool :=
  sortCompareVal
    (match dateNumOrZero dateOf (b.get "createdAt"),
        dateNumOrZero dateOf (a.get "createdAt") with
      | some tb, some ta => some (tb - ta)
      | _, _ => none) ≤ 0

/-- `Math.ceil(n / limit)` for a positive integer `limit`. -/
def jsCeilDiv (n limit : Nat) : Nat := (n + limit - 1) / limit

/-- The pagination block returned by the list endpoints (field named
`totalJobs` / `totalInternships` / `totalItems` depending on the resource). -/
structure Pagination where
  currentPage : Nat
  totalPages : Nat
  totalCount : Nat
  hasNext : Bool
  hasPrev : Bool
deriving DecidableEq

structure ListResponse where
  items : Store
  pagination : Pagination
deriving DecidableEq

/-- The `filteredJobs` local of `getJobs`: the post-filter, pre-page result
set (scan filter, then recency sort, then the conditional search filter). -/
def jobsFilteredSet (dateOf : String → Option Int) (store : Store)
    (category location batch tags role q : Option String) : Store :=
  let scanned := store.filter (jobsScanPred category location batch tags role)
  let sorted := jsSort (recencyLe dateOf "postedOn") scanned
  match q with
  | none => sorted
  | some searchTerm =>
      if searchTerm = "" then sorted else sorted.filter (jobsSearchPred searchTerm)

/-- `jobsController.getJobs` (the `unwrap` utility is the identity on
document-client items and is omitted). -/
def getJobs (dateOf : String → Option Int) (store : Store)
    (category location batch tags role q : Option String)
    (page limit : Nat) : ListResponse :=
  let offset := (page - 1) * limit
  let filteredJobs := jobsFilteredSet dateOf store category location batch tags role q
  let paginatedJobs := (filteredJobs.drop offset).take limit
  ListResponse.mk paginatedJobs
    (Pagination.mk page (jsCeilDiv filteredJobs.length limit) filteredJobs.length
      (decide (offset + limit < filteredJobs.length)) (decide (1 < page)))

/-- The in-process search filter of `getSarkariJobs`. -/
def sarkariSearchPred (searchTerm : String) (job : Obj) : Bool :=
  let search := lowerChars searchTerm
  lcFieldIncludes (job.get "title") search ||
    lcFieldIncludes (job.get "organization") search ||
    lcFieldIncludes (job.get "category") search

/-- The `sortedJobs` local of `getSarkariJobs` after its conditional search
filter: the post-filter, pre-page result set. -/
def sarkariFilteredSet (dateOf : String → Option Int) (store : Store)
    (organization q : Option String) : Store :=
  let scanned := store.filter (fun job =>
    (job.get "status" == some (.str "active")) &&
    (match organization with
      | none => true
      | some o => o = "" || job.get "organization" == some (.str o)))
  let sorted := jsSort (sarkariLe dateOf) scanned
  match q with
  | none => sorted
  | some searchTerm =>
      if searchTerm = "" then sorted else sorted.filter (sarkariSearchPred searchTerm)

/-- `sarkariJobsController.getSarkariJobs`. -/
def getSarkariJobs (dateOf : String → Option Int) (store : Store)
    (organization q : Option String) (page limit : Nat) : ListResponse :=
  let offset := (page - 1) * limit
  let sortedJobs := sarkariFilteredSet dateOf store organization q
  let paginatedJobs := (sortedJobs.drop offset).take limit
  ListResponse.mk paginatedJobs
    (Pagination.mk page (jsCeilDiv sortedJobs.length limit) sortedJobs.length
      (decide (offset + limit < sortedJobs.length)) (decide (1 < page)))

/-- The `FilterExpression` built by `getAllInternships`. -/
def internshipsScanPred (category location batch : Option String)
    (item : Obj) : Bool :=
  (item.get "isActive" == some (.bool true)) &&
  (match category with
    | none => true
    | some c => c = "" || item.get "category" == some (.str c)) &&
  (match location with
    | none => true
    | some l => l = "" || dynContains (item.get "location") l) &&
  (match batch with
    | none => true
    | some b => b = "" || dynContains (item.get "batch") b)

/-- `internshipsController.getAllInternships`.  The handler destructures
`q: searchTerm` from the request but applies no search filter (the comment in
the source defers it to in-process filtering, which is absent), so the
response does not depend on `q`. -/
def getAllInternships (dateOf : String → Option Int) (store : Store)
    (category location batch q : Option String) (page limit : Nat) :
    ListResponse :=
  let offset := (page - 1) * limit
  let scanned := store.filter (internshipsScanPred category location batch)
  let internships := jsSort (recencyLe dateOf "postedAt") scanned
  let paginatedInternships := (internships.drop offset).take limit
  ListResponse.mk paginatedInternships
    (Pagination.mk page (jsCeilDiv internships.length limit) internships.length
      (decide (offset + limit < internships.length)) (decide (1 < page)))

/-- `item.category && item.category.toLowerCase() === category.toLowerCase()`
(walking category filter). -/
def walkingCategoryPred (category : String) (item : Obj) : Bool :=
  match item.get "category" with
  | some (.str s) => s ≠ "" && lowerChars s = lowerChars category
  | _ => false

/-- The in-process search filter of `getAllWalking`. -/
def walkingSearchPred (searchTerm : String) (item : Obj) : Bool :=
  let search := lowerChars searchTerm
  ((lcFieldIncludes (item.get "title") search ||
      lcFieldIncludes (item.get "company") search) ||
    lcFieldIncludes (item.get "category") search) ||
    lcFieldIncludes (item.get "experience") search

/-- The enrichment step of `getAllWalking`:
`Promise.all(filteredItems.map(async w => ({...w, companyLogo: await getCompanyLogo(w.company)})))`.
`logoOf` is the resolved value of one `getCompanyLogo` call. -/
def walkingEnrich (logoOf : Option Val → String) (items : Store) : Store :=
  items.map (fun w => w.set "companyLogo" (.str (logoOf (w.get "company"))))

/-- Response of `getAllWalking`; `logoCallArgs` records the argument of every
`getCompanyLogo` call the handler issues (one per enriched item). -/
structure WalkingResponse where
  walking : Store
  count : Nat
  logoCallArgs : List (Option Val)
  pagination : Pagination

/-- One `if (param) filteredItems = filteredItems.filter(...)` step. -/
def condFilter (param : Option String) (pred : String → Obj → Bool)
    (items : Store) : Store :=
  match param with
  | none => items
  | some s => if s = "" then items else items.filter (pred s)

/-- The `filteredItems` local of `getAllWalking` after its three conditional
in-process filters. -/
def walkingFilteredSet (store : Store) (category location q : Option String) :
    Store :=
  condFilter q walkingSearchPred
    (condFilter location
      (fun l it => lcFieldIncludes (it.get "location") (lowerChars l))
      (condFilter category walkingCategoryPred store))

/-- `walkingController.getAllWalking`: unfiltered scan, three conditional
in-process filters, logo enrichment of the whole filtered set, then the
pagination slice. -/
def getAllWalking (logoOf : Option Val → String) (store : Store)
    (category location q : Option String) (page limit : Nat) :
    WalkingResponse :=
  let offset := (page - 1) * limit
  let filteredItems := walkingFilteredSet store category location q
  let walkingWithLogos := walkingEnrich logoOf filteredItems
  let totalItems := walkingWithLogos.length
  let totalPages := jsCeilDiv totalItems limit
  let paginatedItems := (walkingWithLogos.drop offset).take limit
  WalkingResponse.mk paginatedItems paginatedItems.length
    (filteredItems.map (fun w => w.get "company"))
    (Pagination.mk page totalPages totalItems
      (decide (page < totalPages)) (decide (1 < page)))

/-! ## Claim C2: pagination numbers come from the post-filter, pre-page set -/

/-- `jsCeilDiv n limit` is the ceiling of `n / limit`: the characteristic
inequalities of `Math.ceil`. -/
theorem jsCeilDiv_spec (n limit : Nat) (h : 1 ≤ limit) :
    n ≤ jsCeilDiv n limit * limit ∧ jsCeilDiv n limit * limit < n + limit := by
  unfold jsCeilDiv
  have h1 := Nat.div_add_mod' (n + limit - 1) limit
  have h2 := Nat.mod_lt (n + limit - 1) (show 0 < limit by omega)
  omega

/-- C2: for every combination of structured filters and free-text `q`, both
`getJobs` and `getSarkariJobs` compute their pagination numbers from the
post-filter, pre-page result set: the reported total equals the size of the
filtered set (hence the length of the page returned for `page = 1`,
`limit = total`), and `totalPages` is the ceiling of `total / limit`. -/
theorem pagination_from_filtered_set
    (dateOf : String → Option Int) (store sstore : Store)
    (category location batch tags role q organization sq : Option String)
    (page limit : Nat) (hlimit : 1 ≤ limit) :
    ((getJobs dateOf store category location batch tags role q page
          limit).pagination.totalCount
        = (jobsFilteredSet dateOf store category location batch tags role q).length
      ∧ (getJobs dateOf store category location batch tags role q 1
            (jobsFilteredSet dateOf store category location batch tags role
              q).length).items.length
        = (jobsFilteredSet dateOf store category location batch tags role q).length
      ∧ (getJobs dateOf store category location batch tags role q page
            limit).pagination.totalPages
        = jsCeilDiv (jobsFilteredSet dateOf store category location batch tags
            role q).length limit
      ∧ (jobsFilteredSet dateOf store category location batch tags role q).length
          ≤ (getJobs dateOf store category location batch tags role q page
              limit).pagination.totalPages * limit
      ∧ (getJobs dateOf store category location batch tags role q page
            limit).pagination.totalPages * limit
          < (jobsFilteredSet dateOf store category location batch tags role
              q).length + limit)
    ∧ ((getSarkariJobs dateOf sstore organization sq page limit).pagination.totalCount
        = (sarkariFilteredSet dateOf sstore organization sq).length
      ∧ (getSarkariJobs dateOf sstore organization sq 1
            (sarkariFilteredSet dateOf sstore organization sq).length).items.length
        = (sarkariFilteredSet dateOf sstore organization sq).length
      ∧ (getSarkariJobs dateOf sstore organization sq page
            limit).pagination.totalPages
        = jsCeilDiv (sarkariFilteredSet dateOf sstore organization sq).length limit
      ∧ (sarkariFilteredSet dateOf sstore organization sq).length
          ≤ (getSarkariJobs dateOf sstore organization sq page
              limit).pagination.totalPages * limit
      ∧ (getSarkariJobs dateOf sstore organization sq page
            limit).pagination.totalPages * limit
          < (sarkariFilteredSet dateOf sstore organization sq).length + limit) := by
  refine ⟨⟨rfl, ?_, rfl, ?_, ?_⟩, ⟨rfl, ?_, rfl, ?_, ?_⟩⟩
  · show (((jobsFilteredSet dateOf store category location batch tags role
        q).drop ((1 - 1) * (jobsFilteredSet dateOf store category location
        batch tags role q).length)).take (jobsFilteredSet dateOf store category
        location batch tags role q).length).length
      = (jobsFilteredSet dateOf store category location batch tags role q).length
    simp
  · exact (jsCeilDiv_spec _ limit hlimit).1
  · exact (jsCeilDiv_spec _ limit hlimit).2
  · show (((sarkariFilteredSet dateOf sstore organization sq).drop
        ((1 - 1) * (sarkariFilteredSet dateOf sstore organization
        sq).length)).take (sarkariFilteredSet dateOf sstore organization
        sq).length).length
      = (sarkariFilteredSet dateOf sstore organization sq).length
    simp
  · exact (jsCeilDiv_spec _ limit hlimit).1
  · exact (jsCeilDiv_spec _ limit hlimit).2

/-- Witness for C2 at a concrete input. -/
theorem pagination_from_filtered_set_witness :
    1 ≤ 15
    ∧ (((getJobs (fun _ => none) [[("status", Val.str "active")]] none none
            none none none none 2 15).pagination.totalCount
          = (jobsFilteredSet (fun _ => none) [[("status", Val.str "active")]]
              none none none none none none).length
        ∧ (getJobs (fun _ => none) [[("status", Val.str "active")]] none none
              none none none none 1
              (jobsFilteredSet (fun _ => none) [[("status", Val.str "active")]]
                none none none none none none).length).items.length
          = (jobsFilteredSet (fun _ => none) [[("status", Val.str "active")]]
              none none none none none none).length
        ∧ (getJobs (fun _ => none) [[("status", Val.str "active")]] none none
              none none none none 2 15).pagination.totalPages
          = jsCeilDiv (jobsFilteredSet (fun _ => none)
              [[("status", Val.str "active")]] none none none none none
              none).length 15
        ∧ (jobsFilteredSet (fun _ => none) [[("status", Val.str "active")]]
              none none none none none none).length
            ≤ (getJobs (fun _ => none) [[("status", Val.str "active")]] none
                none none none none none 2 15).pagination.totalPages * 15
        ∧ (getJobs (fun _ => none) [[("status", Val.str "active")]] none none
              none none none none 2 15).pagination.totalPages * 15
            < (jobsFilteredSet (fun _ => none) [[("status", Val.str "active")]]
                none none none none none none).length + 15)
      ∧ ((getSarkariJobs (fun _ => none) [] none none 2 15).pagination.totalCount
          = (sarkariFilteredSet (fun _ => none) [] none none).length
        ∧ (getSarkariJobs (fun _ => none) [] none none 1
              (sarkariFilteredSet (fun _ => none) [] none
                none).length).items.length
          = (sarkariFilteredSet (fun _ => none) [] none none).length
        ∧ (getSarkariJobs (fun _ => none) [] none none 2 15).pagination.totalPages
          = jsCeilDiv (sarkariFilteredSet (fun _ => none) [] none none).length 15
        ∧ (sarkariFilteredSet (fun _ => none) [] none none).length
            ≤ (getSarkariJobs (fun _ => none) [] none none 2
                15).pagination.totalPages * 15
        ∧ (getSarkariJobs (fun _ => none) [] none none 2
              15).pagination.totalPages * 15
            < (sarkariFilteredSet (fun _ => none) [] none none).length + 15)) :=
  ⟨by decide,
    pagination_from_filtered_set (fun _ => none)
      [[("status", Val.str "active")]] [] none none none none none none none
      none 2 15 (by decide)⟩

/-! ## Claim C3: the free-text search -/

/-- A job titled "Node JS Developer", as stored. -/
def nodeJob : Obj :=
  [("status", Val.str "active"), ("role", Val.str "Node JS Developer"),
    ("companyName", Val.str "Acme")]

/-- C3 counterexample: the claim (and the spec's own example) says the query
`"Node.js"` matches a candidate titled `"Node JS Developer"`.  It does not:
normalization preserves spaces, so the normalized query `"nodejs"` is not a
substring of the normalized title `"node js developer"`, and `getJobs` filters
the item out. -/
theorem nodeJsSearch_counterexample :
    jobsFilteredSet (fun _ => none) [nodeJob] none none none none none
        (some "Node.js") = []
      ∧ jobsSearchPred "Node.js" nodeJob = false
      ∧ stripNonAlnum (lowerChars "Node.js") = "nodejs".toList
      ∧ trimSpaces (stripNonAlnum (lowerChars "Node JS Developer"))
        = "node js developer".toList
      ∧ charsInclude "node js developer".toList "nodejs".toList = false := by
  refine ⟨?_, ?_, ?_, ?_, ?_⟩ <;> decide

/-- C3 as amended: with a non-empty `q`, `getJobs` keeps exactly the
candidates whose `role` or `companyName`, lower-cased, stripped of characters
outside `[a-z0-9 ]` and trimmed, contains the lower-cased stripped query as a
substring — spaces are preserved by the normalization, so `"Node.js"` does
not match `"Node JS Developer"`; and `getAllInternships` ignores `q`
entirely, so its result never depends on the search term. -/
theorem search_filter_amended (dateOf : String → Option Int)
    (store istore : Store)
    (category location batch tags role : Option String) (q : String)
    (item : Obj) (icat iloc ibat iq iq' : Option String) (page limit : Nat)
    (hq : q ≠ "") :
    (item ∈ jobsFilteredSet dateOf store category location batch tags role
        (some q)
      ↔ item ∈ store
          ∧ jobsScanPred category location batch tags role item = true
          ∧ jobsSearchPred q item = true)
    ∧ getAllInternships dateOf istore icat iloc ibat iq page limit
      = getAllInternships dateOf istore icat iloc ibat iq' page limit := by
  constructor
  · show item ∈ (if q = "" then _ else List.filter _ _) ↔ _
    rw [if_neg hq]
    constructor
    · intro h
      have h1 := List.mem_filter.mp h
      have h2 := (mem_jsSort _ _ _).mp h1.1
      have h3 := List.mem_filter.mp h2
      exact ⟨h3.1, h3.2, h1.2⟩
    · intro h
      exact List.mem_filter.mpr
        ⟨(mem_jsSort _ _ _).mpr (List.mem_filter.mpr ⟨h.1, h.2.1⟩), h.2.2⟩
  · rfl

/-- Witness for C3-as-amended at a concrete input. -/
theorem search_filter_amended_witness :
    "react" ≠ ""
    ∧ (([("status", Val.str "active"), ("role", Val.str "React Developer")] : Obj)
          ∈ jobsFilteredSet (fun _ => none)
            [[("status", Val.str "active"), ("role", Val.str "React Developer")]]
            none none none none none (some "react")
        ↔ ([("status", Val.str "active"), ("role", Val.str "React Developer")] : Obj)
            ∈ ([[("status", Val.str "active"), ("role", Val.str "React Developer")]] : Store)
          ∧ jobsScanPred none none none none none
              [("status", Val.str "active"), ("role", Val.str "React Developer")] = true
          ∧ jobsSearchPred "react"
              [("status", Val.str "active"), ("role", Val.str "React Developer")] = true)
    ∧ getAllInternships (fun _ => none) [] none none none (some "x") 1 15
      = getAllInternships (fun _ => none) [] none none none none 1 15 :=
  ⟨by decide,
    search_filter_amended (fun _ => none)
      [[("status", Val.str "active"), ("role", Val.str "React Developer")]] []
      none none none none none "react"
      [("status", Val.str "active"), ("role", Val.str "React Developer")]
      none none none (some "x") none 1 15 (by decide)⟩

/-! ## Claim C6: the recency sort and missing timestamps -/

/-- A legacy job with no `postedOn` attribute. -/
def legacyJob : Obj := [("status", Val.str "active"), ("role", Val.str "Legacy")]

/-- A job with a parseable `postedOn` timestamp. -/
def freshJob : Obj :=
  [("status", Val.str "active"), ("role", Val.str "Fresh"),
    ("postedOn", Val.str "2024-05-01T00:00:00.000Z")]

/-- A concrete `Date.parse` oracle for the counterexample. -/
def demoDateOf : String → Option Int :=
  fun s => if s = "2024-05-01T00:00:00.000Z" then some 1714521600000 else none

/-- C6 counterexample: the claim says an item missing the timestamp sorts as
the oldest (epoch 0), appearing after every timestamped item.  In the code
`new Date(undefined)` is `NaN`, the comparator result is coerced to `+0`, and
the stable sort leaves the item where it was: scanning `[legacyJob, freshJob]`
returns the legacy item first, not last. -/
theorem missing_timestamp_counterexample :
    (getJobs demoDateOf [legacyJob, freshJob] none none none none none none
        1 15).items = [legacyJob, freshJob]
      ∧ ([legacyJob, freshJob] : Store) ≠ [freshJob, legacyJob]
      ∧ legacyJob.get "postedOn" = none
      ∧ dateNum demoDateOf (freshJob.get "postedOn") = some 1714521600000 := by
  refine ⟨?_, ?_, ?_, ?_⟩ <;> decide

/-- Interpretation of the comparator when both timestamps parse. -/
theorem recencyLe_of_times (dateOf : String → Option Int) (field : String)
    (a b : Obj) (ta tb : Int)
    (ha : dateNum dateOf (a.get field) = some ta)
    (hb : dateNum dateOf (b.get field) = some tb) :
    recencyLe dateOf field a b = true ↔ tb ≤ ta := by
  unfold recencyLe
  rw [ha, hb]
  simp [sortCompareVal]

/-- C6 as amended: `getJobs` sorts with the comparator
`new Date(b.postedOn) - new Date(a.postedOn)`; when both timestamps parse the
order is by timestamp descending (and the sorted output is pairwise ordered
that way whenever every item's timestamp parses), but an item missing the
timestamp yields a `NaN` comparison that ECMAScript coerces to `+0`, so it
compares equal to every item and keeps its relative position under the stable
sort instead of sorting as the oldest.  In `getSarkariJobs` the comparator
reads `createdAt || 0`, so there a missing timestamp genuinely becomes
epoch `0`. -/
theorem recency_sort_amended (dateOf : String → Option Int) (a b : Obj)
    (l : List Obj)
    (hmiss : a.get "postedOn" = none)
    (hsome : ∀ x ∈ l, (dateNum dateOf (x.get "postedOn")).isSome) :
    (recencyLe dateOf "postedOn" a b = true
        ∧ recencyLe dateOf "postedOn" b a = true)
      ∧ (jsSort (recencyLe dateOf "postedOn") l).Pairwise
          (fun x y => recencyLe dateOf "postedOn" x y = true)
      ∧ dateNumOrZero dateOf none = some 0 := by
  have hta : dateNum dateOf (a.get "postedOn") = none := by
    rw [hmiss]
    rfl
  refine ⟨?_, ?_, rfl⟩
  · constructor
    · unfold recencyLe
      rw [hta]
      cases dateNum dateOf (b.get "postedOn") <;> simp [sortCompareVal]
    · unfold recencyLe
      rw [hta]
      simp [sortCompareVal]
  · apply pairwise_jsSort
    · intro x hx y hy
      obtain ⟨tx, htx⟩ := Option.isSome_iff_exists.mp (hsome x hx)
      obtain ⟨ty, hty⟩ := Option.isSome_iff_exists.mp (hsome y hy)
      rcases le_total ty tx with h | h
      · exact Or.inl ((recencyLe_of_times dateOf _ x y tx ty htx hty).mpr h)
      · exact Or.inr ((recencyLe_of_times dateOf _ y x ty tx hty htx).mpr h)
    · intro x hx y hy z hz hxy hyz
      obtain ⟨tx, htx⟩ := Option.isSome_iff_exists.mp (hsome x hx)
      obtain ⟨ty, hty⟩ := Option.isSome_iff_exists.mp (hsome y hy)
      obtain ⟨tz, htz⟩ := Option.isSome_iff_exists.mp (hsome z hz)
      have h1 := (recencyLe_of_times dateOf _ x y tx ty htx hty).mp hxy
      have h2 := (recencyLe_of_times dateOf _ y z ty tz hty htz).mp hyz
      exact (recencyLe_of_times dateOf _ x z tx tz htx htz).mpr (h2.trans h1)

/-- Witness for C6-as-amended at a concrete input. -/
theorem recency_sort_amended_witness :
    (legacyJob.get "postedOn" = none
        ∧ (∀ x ∈ [freshJob], (dateNum demoDateOf (x.get "postedOn")).isSome))
      ∧ ((recencyLe demoDateOf "postedOn" legacyJob freshJob = true
            ∧ recencyLe demoDateOf "postedOn" freshJob legacyJob = true)
          ∧ (jsSort (recencyLe demoDateOf "postedOn") [freshJob]).Pairwise
              (fun x y => recencyLe demoDateOf "postedOn" x y = true)
          ∧ dateNumOrZero demoDateOf none = some 0) :=
  ⟨⟨by decide, by decide⟩,
    recency_sort_amended demoDateOf legacyJob freshJob [freshJob]
      (by decide) (by decide)⟩

/-! ## Claim C7: logo enrichment versus the page -/

def walkingA : Obj := [("id", Val.str "w1"), ("company", Val.str "Acme")]

def walkingB : Obj := [("id", Val.str "w2"), ("company", Val.str "Globex")]

/-- A logo oracle whose every lookup resolves to the placeholder. -/
def placeholderLogoOf : Option Val → String := fun _ => "/placeholder-logo.svg"

/-- C7 counterexample: the claim bounds the number of logo-resolver calls of
one list request by `limit`.  `getAllWalking` enriches the whole filtered set
before slicing the page: with two matching items and `limit = 1` it issues
two `getCompanyLogo` calls. -/
theorem walking_enrichment_counterexample :
    (getAllWalking placeholderLogoOf [walkingA, walkingB] none none none 1
        1).logoCallArgs.length = 2
      ∧ ¬ (2 ≤ 1)
      ∧ (getAllWalking placeholderLogoOf [walkingA, walkingB] none none none 1
          1).walking.length = 1 := by
  refine ⟨rfl, by decide, rfl⟩

theorem mem_condFilter (param : Option String) (pred : String → Obj → Bool)
    (items : Store) (x : Obj) (hx : x ∈ condFilter param pred items) :
    x ∈ items := by
  cases param with
  | none => exact hx
  | some s =>
      by_cases hs : s = ""
      · simpa [condFilter, hs] using hx
      · simp only [condFilter, if_neg hs] at hx
        exact (List.mem_filter.mp hx).1

theorem mem_walkingFilteredSet (store : Store) (category location q : Option String)
    (x : Obj) (hx : x ∈ walkingFilteredSet store category location q) :
    x ∈ store :=
  mem_condFilter _ _ _ x
    (mem_condFilter _ _ _ x (mem_condFilter _ _ _ x hx))

/-- C7 as amended: `getAllWalking` issues one `getCompanyLogo` call per item
of the whole filtered set (so the number of calls equals `totalItems`, which
the counterexample shows can exceed `limit`); the returned page is the slice
of the enriched set, so it has at most `limit` items, each carrying a
`companyLogo` derived from an item of the store. -/
theorem walking_enrichment_amended (logoOf : Option Val → String)
    (store : Store) (category location q : Option String) (page limit : Nat) :
    (getAllWalking logoOf store category location q page limit).logoCallArgs.length
        = (getAllWalking logoOf store category location q page
            limit).pagination.totalCount
      ∧ (getAllWalking logoOf store category location q page
          limit).logoCallArgs.length
        = (walkingFilteredSet store category location q).length
      ∧ (getAllWalking logoOf store category location q page
          limit).walking.length ≤ limit
      ∧ ∀ w ∈ (getAllWalking logoOf store category location q page
          limit).walking,
          ∃ orig, orig ∈ store
            ∧ w = orig.set "companyLogo" (Val.str (logoOf (orig.get "company"))) := by
  refine ⟨?_, ?_, ?_, ?_⟩
  · simp [getAllWalking, walkingEnrich]
  · simp [getAllWalking]
  · simp only [getAllWalking]
    exact (List.length_take_le _ _)
  · intro w hw
    simp only [getAllWalking] at hw
    have h1 : w ∈ walkingEnrich logoOf (walkingFilteredSet store category location q) := by
      have h2 := List.mem_of_mem_take hw
      exact List.mem_of_mem_drop h2
    obtain ⟨orig, horig, heq⟩ := List.mem_map.mp h1
    exact ⟨orig, mem_walkingFilteredSet store category location q orig horig,
      heq.symm⟩

/-! ## Field-level updates: the `UpdateExpression` construction

The update handlers build a `SET` expression by string concatenation inside
`Object.keys(updates).forEach((key, index) => ...)`: every non-key field
appends `#key = :key`, followed by `', '` whenever its index is not the last
index of the key list.  We model the built expression as a token list
(`assign` / `comma`); DynamoDB accepts it only if assignments alternate with
single commas (`piecesValid`), else the `UpdateCommand` throws and the
handler's catch returns a 500. -/

inductive ExprPiece where
  | assign : String → Val → ExprPiece
  | comma : ExprPiece
deriving DecidableEq

/-- The `forEach` loop: `excl` are the key fields skipped, `tr` the
per-field value transformation (the internships handler re-coerces `batch`),
`n` the total number of keys, `i` the current index. -/
def buildAssignsFrom (excl : List String) (tr : String → Val → Val) (n : Nat) :
    Nat → List (String × Val) → List ExprPiece
  | _, [] => []
  | i, (k, v) :: rest =>
      (if k ∈ excl then []
        else
          ExprPiece.assign k (tr k v) ::
            (if i < n - 1 then [ExprPiece.comma] else []))
      ++ buildAssignsFrom excl tr n (i + 1) rest

/-- Tail of a well-formed `SET` clause after its first assignment. -/
def piecesValidTail : List ExprPiece → Bool
  | [] => true
  | ExprPiece.comma :: ExprPiece.assign _ _ :: rest => piecesValidTail rest
  | _ => false

/-- A `SET` clause DynamoDB accepts: a nonempty alternation
`assign (comma assign)*` (no leading, trailing or doubled comma). -/
def piecesValid : List ExprPiece → Bool
  | ExprPiece.assign _ _ :: rest => piecesValidTail rest
  | _ => false

/-- Applying the `SET` assignments to an item. -/
def applyAssigns (item : Obj) : List ExprPiece → Obj
  | [] => item
  | ExprPiece.assign k v :: rest => applyAssigns (item.set k v) rest
  | ExprPiece.comma :: rest => applyAssigns item rest

/-- `UpdateCommand` on `Key = (pkv, skv)`: `none` models the thrown
`ValidationException` for a malformed expression; otherwise every item at the
key gets the assignments. -/
def updateItemAt (pkF skF : String) (store : Store) (pkv skv : Option Val)
    (pieces : List ExprPiece) : Option Store :=
  if piecesValid pieces then
    some (store.map (fun it =>
      if it.get pkF = pkv && it.get skF = skv then applyAssigns it pieces else it))
  else none

/-- The `batch` re-coercion of `updateInternship`:
`Array.isArray(v) ? v : (v ? v.split(',').map(b => b.trim()) : [])`.
(A truthy non-string would throw on `.split`; `batch` is always a string or
an array in this store, so that case keeps the value.) -/
def coerceBatch : Val → Val
  | .arr l => .arr l
  | .str s =>
      if s = "" then .arr [] else .arr ((s.splitOn ",").map String.trim)
  | v => if v.truthy then v else .arr []

/-! ## The update handlers (key migration on category change) -/

/-- Result of an update handler run. -/
inductive UpdateOutcome where
  | notFound
  | err500
  | relocated (mid post : Store) (newItem : Obj)
  | inPlace (post : Store) (returned : Obj)
deriving DecidableEq

def UpdateOutcome.isRelocated : UpdateOutcome → Bool
  | .relocated _ _ _ => true
  | _ => false

/-- The store after a successful run. -/
def UpdateOutcome.postStore : UpdateOutcome → Option Store
  | .relocated _ post _ => some post
  | .inPlace post _ => some post
  | _ => none

/-- `adminController.updateJob`.  Locates by scanning for the `jobId`
(sort key); if the patch carries a truthy `category` different from the
current one, writes `{...existingJob, ...updates, category: newCategory}`
under the new partition key and then deletes the old
`(oldCategory, jobId)`; otherwise performs a field-level update against the
unchanged key, skipping `jobId` and `category` (no `lastUpdated` is
written). -/
def updateJob (store : Store) (id : String) (updates : Obj) : UpdateOutcome :=
  let found := store.filter (fun it => it.get "jobId" == some (.str id))
  match found with
  | [] => .notFound
  | existingJob :: _ =>
      let inPlace : UpdateOutcome :=
        let pieces :=
          buildAssignsFrom ["jobId", "category"] (fun _ v => v)
            updates.length 0 updates
        match updateItemAt "category" "jobId" store
            (existingJob.get "category") (some (.str id)) pieces with
        | some post => .inPlace post (applyAssigns existingJob pieces)
        | none => .err500
      match updates.get "category" with
      | some nc =>
          if nc.truthy && !(some nc == existingJob.get "category") then
            let newJobData := (existingJob.merge updates).set "category" nc
            let mid := putItem "category" "jobId" store newJobData
            let post := deleteKey "category" "jobId" mid
              (existingJob.get "category") (some (.str id))
            .relocated mid post newJobData
          else inPlace
      | none => inPlace

/-- `internshipsController.updateInternship`.  Same shape over the
`(category, id)` key; on relocation the new item also refreshes
`companyLogo` (via the logo oracle, when the patch changes `company`) and
`lastUpdated`; the in-place branch appends `lastUpdated` to the `SET`
clause and re-coerces `batch`. -/
def updateInternship (logoOf : Option Val → String) (now : String)
    (store : Store) (id : String) (updates : Obj) : UpdateOutcome :=
  let found := store.filter (fun it => it.get "id" == some (.str id))
  match found with
  | [] => .notFound
  | existingInternship :: _ =>
      let inPlace : UpdateOutcome :=
        let pieces :=
          buildAssignsFrom ["id", "category"]
            (fun k v => if k = "batch" then coerceBatch v else v)
            updates.length 0 updates
          ++ [ExprPiece.comma, ExprPiece.assign "lastUpdated" (.str now)]
        match updateItemAt "category" "id" store
            (existingInternship.get "category") (some (.str id)) pieces with
        | some post => .inPlace post (applyAssigns existingInternship pieces)
        | none => .err500
      match updates.get "category" with
      | some nc =>
          if nc.truthy && !(some nc == existingInternship.get "category") then
            let companyLogo : Val :=
              match updates.get "company" with
              | some c =>
                  if c.truthy && !(some c == existingInternship.get "company")
                  then .str (logoOf (some c))
                  else (existingInternship.get "companyLogo").getD .null
              | none => (existingInternship.get "companyLogo").getD .null
            let newInternshipData :=
              (((existingInternship.merge updates).set "category" nc).set
                "companyLogo" companyLogo).set "lastUpdated" (.str now)
            let mid := putItem "category" "id" store newInternshipData
            let post := deleteKey "category" "id" mid
              (existingInternship.get "category") (some (.str id))
            .relocated mid post newInternshipData
          else inPlace
      | none => inPlace

/-! ## The delete handlers -/

/-- Result of a delete handler: the HTTP outcome plus the resulting table. -/
inductive DeleteOutcome where
  | ok (store : Store)
  | notFound (store : Store)
deriving DecidableEq

def DeleteOutcome.status : DeleteOutcome → Nat
  | .ok _ => 200
  | .notFound _ => 404

def DeleteOutcome.store : DeleteOutcome → Store
  | .ok s => s
  | .notFound s => s

/-- `adminController.deleteJob`: scan for the `jobId`; not-found is reported
as success ("already deleted"); otherwise every scanned item (there may be
several categories holding the same `jobId`) is deleted under its own
`(category, jobId)` key. -/
def deleteJob (store : Store) (id : String) : DeleteOutcome :=
  let found := store.filter (fun it => it.get "jobId" == some (.str id))
  match found with
  | [] => .ok store
  | _ :: _ =>
      .ok (found.foldl
        (fun s job =>
          deleteKey "category" "jobId" s (job.get "category") (some (.str id)))
        store)

/-- `internshipsController.deleteInternship`: scan for the `id`; 404 when
absent, else delete the first scanned item's `(category, id)` key. -/
def deleteInternship (store : Store) (id : String) : DeleteOutcome :=
  let found := store.filter (fun it => it.get "id" == some (.str id))
  match found with
  | [] => .notFound store
  | internship :: _ =>
      .ok (deleteKey "category" "id" store (internship.get "category")
        (some (.str id)))

/-- `adminController.deleteSarkariJob`: scan for the `jobId`; 404 when
absent, else delete the first scanned item's `(organization, jobId)` key. -/
def deleteSarkariJob (store : Store) (id : String) : DeleteOutcome :=
  let found := store.filter (fun it => it.get "jobId" == some (.str id))
  match found with
  | [] => .notFound store
  | job :: _ =>
      .ok (deleteKey "organization" "jobId" store (job.get "organization")
        (some (.str id)))

/-- `DeleteCommand` on a simple primary key `{id}`. -/
def deleteKeySimple (kF : String) (store : Store) (kv : Option Val) : Store :=
  store.filter (fun it => !(it.get kF = kv))

/-- `walkingController.deleteWalking`: no existence check at all — the
unconditional `DeleteCommand` succeeds whether or not the item exists. -/
def deleteWalking (store : Store) (id : String) : DeleteOutcome :=
  .ok (deleteKeySimple "id" store (some (.str id)))

/-- `certificationsController.deleteCertification`: same unconditional
delete. -/
def deleteCertification (store : Store) (id : String) : DeleteOutcome :=
  .ok (deleteKeySimple "id" store (some (.str id)))

/-! ## Claim C4: delete idempotence per resource -/

/-- C4 counterexample: the claim says every non-jobs resource answers 404
for a non-existent id.  `deleteWalking` and `deleteCertification` run an
unconditional `DeleteCommand` with no existence check and answer 200. -/
theorem delete_notfound_counterexample :
    (deleteWalking [] "w1").status = 200
      ∧ (deleteWalking [] "w1").status ≠ 404
      ∧ (deleteCertification [] "c1").status = 200
      ∧ (deleteCertification [] "c1").status ≠ 404 := by
  refine ⟨rfl, by decide, rfl, by decide⟩

/-- C4 as amended: jobs delete is idempotent (success both times, also on a
non-matching id); internships and sarkari-jobs answer 404 for a non-existent
id and leave the table unchanged; walking and certifications always answer
200 because their handlers delete unconditionally. -/
theorem delete_idempotence_amended
    (store istore sstore wstore cstore : Store) (id : String)
    (hint : ∀ it ∈ istore, ¬ it.get "id" = some (Val.str id))
    (hsar : ∀ it ∈ sstore, ¬ it.get "jobId" = some (Val.str id)) :
    ((deleteJob store id).status = 200
        ∧ (deleteJob ((deleteJob store id).store) id).status = 200)
      ∧ ((deleteInternship istore id).status = 404
        ∧ (deleteInternship istore id).store = istore)
      ∧ ((deleteSarkariJob sstore id).status = 404
        ∧ (deleteSarkariJob sstore id).store = sstore)
      ∧ (deleteWalking wstore id).status = 200
      ∧ (deleteCertification cstore id).status = 200 := by
  have hjob : ∀ (s : Store), (deleteJob s id).status = 200 := by
    intro s
    cases h : s.filter (fun it => it.get "jobId" == some (Val.str id)) with
    | nil => simp [deleteJob, h, DeleteOutcome.status]
    | cons j js => simp [deleteJob, h, DeleteOutcome.status]
  have hifil : istore.filter (fun it => it.get "id" == some (Val.str id)) = [] := by
    rw [List.filter_eq_nil_iff]
    intro it hit
    simpa using hint it hit
  have hsfil : sstore.filter (fun it => it.get "jobId" == some (Val.str id)) = [] := by
    rw [List.filter_eq_nil_iff]
    intro it hit
    simpa using hsar it hit
  refine ⟨⟨hjob store, hjob _⟩, ⟨?_, ?_⟩, ⟨?_, ?_⟩, rfl, rfl⟩
  · simp only [deleteInternship, hifil]
    rfl
  · simp only [deleteInternship, hifil]
    rfl
  · simp only [deleteSarkariJob, hsfil]
    rfl
  · simp only [deleteSarkariJob, hsfil]
    rfl

/-- Witness for C4-as-amended at a concrete input. -/
theorem delete_idempotence_amended_witness :
    ((∀ it ∈ ([[("id", Val.str "other")]] : Store),
          ¬ it.get "id" = some (Val.str "x1"))
        ∧ (∀ it ∈ ([] : Store), ¬ it.get "jobId" = some (Val.str "x1")))
      ∧ (((deleteJob [[("jobId", Val.str "x1"),
              ("category", Val.str "Tech")]] "x1").status = 200
          ∧ (deleteJob ((deleteJob [[("jobId", Val.str "x1"),
                ("category", Val.str "Tech")]] "x1").store) "x1").status = 200)
        ∧ ((deleteInternship [[("id", Val.str "other")]] "x1").status = 404
          ∧ (deleteInternship [[("id", Val.str "other")]] "x1").store
            = [[("id", Val.str "other")]])
        ∧ ((deleteSarkariJob [] "x1").status = 404
          ∧ (deleteSarkariJob [] "x1").store = [])
        ∧ (deleteWalking [] "x1").status = 200
        ∧ (deleteCertification [] "x1").status = 200) :=
  ⟨⟨by decide, by decide⟩,
    delete_idempotence_amended
      [[("jobId", Val.str "x1"), ("category", Val.str "Tech")]]
      [[("id", Val.str "other")]] [] [] [] "x1" (by decide) (by decide)⟩

/-! ## Claim C10: jobs delete removes every category's copy of the id -/

theorem mem_foldl_deleteKey (skv : Option Val) (js : List Obj) (init : Store)
    (x : Obj)
    (hx : x ∈ js.foldl
      (fun s job => deleteKey "category" "jobId" s (job.get "category") skv)
      init) :
    x ∈ init
      ∧ ∀ j ∈ js, ¬ (x.get "category" = j.get "category" ∧ x.get "jobId" = skv) := by
  induction js generalizing init with
  | nil =>
      refine ⟨hx, ?_⟩
      intro j hj
      exact absurd hj (List.not_mem_nil j)
  | cons j js ih =>
      simp only [List.foldl_cons] at hx
      obtain ⟨hmem, hrest⟩ := ih _ hx
      have h2 := List.mem_filter.mp hmem
      refine ⟨h2.1, ?_⟩
      intro j' hj'
      rcases List.mem_cons.mp hj' with rfl | hj'
      · intro hcon
        have h3 := h2.2
        simp [hcon.1, hcon.2] at h3
      · exact hrest j' hj'

/-- C10: `deleteJob` succeeds and leaves no item whose `jobId` equals the
given id — even when an interrupted relocation left the same `jobId` under
two different categories, the loop deletes every scanned copy, restoring the
key-uniqueness invariant for that id. -/
theorem deleteJob_removes_every_copy (store : Store) (id : String) :
    (deleteJob store id).status = 200
      ∧ ((deleteJob store id).store).filter
          (fun it => it.get "jobId" == some (Val.str id)) = [] := by
  constructor
  · cases h : store.filter (fun it => it.get "jobId" == some (Val.str id)) with
    | nil => simp [deleteJob, h, DeleteOutcome.status]
    | cons j js => simp [deleteJob, h, DeleteOutcome.status]
  · cases hfound : store.filter (fun it => it.get "jobId" == some (Val.str id)) with
    | nil =>
        simp only [deleteJob, hfound, DeleteOutcome.store]
    | cons j js =>
        simp only [deleteJob, hfound, DeleteOutcome.store]
        rw [List.filter_eq_nil_iff]
        intro x hx
        intro hpred
        have hjid : x.get "jobId" = some (Val.str id) := by
          simpa using hpred
        obtain ⟨hxstore, hall⟩ := mem_foldl_deleteKey (some (Val.str id))
          (j :: js) store x hx
        have hxfound : x ∈ j :: js := by
          rw [← hfound]
          exact List.mem_filter.mpr ⟨hxstore, by simpa using hjid⟩
        exact hall x hxfound ⟨rfl, hjid⟩

/-! ## Claim C1: insert-then-delete relocation -/

/-- Core relocation fact: if `e` is the only item carrying the sort-key value
and the merged item keeps that sort-key value but sits under a different
partition key, then after `put` (into `mid`) followed by `delete` of the old
key (into `post`), exactly the merged item carries the sort-key value, and
the value is present in the store at every step. -/
theorem reloc_exactly_one (pkF skF : String) (store : Store) (e newItem : Obj)
    (skv : Option Val)
    (hfind : store.filter (fun it => it.get skF == skv) = [e])
    (hnewsk : newItem.get skF = skv)
    (hnewpk : ¬ newItem.get pkF = e.get pkF) :
    (deleteKey pkF skF (putItem pkF skF store newItem) (e.get pkF) skv).filter
        (fun it => it.get skF == skv) = [newItem]
      ∧ (putItem pkF skF store newItem).filter
          (fun it => it.get skF == skv) ≠ []
      ∧ store.filter (fun it => it.get skF == skv) ≠ [] := by
  have he_mem : e ∈ store.filter (fun it => it.get skF == skv) := by
    rw [hfind]
    exact List.mem_singleton.mpr rfl
  have he_sk : e.get skF = skv := by
    simpa using (List.mem_filter.mp he_mem).2
  have hmem : ∀ x, x ∈ store → x.get skF = skv → x = e := by
    intro x hx hsk
    have hxf : x ∈ store.filter (fun it => it.get skF == skv) :=
      List.mem_filter.mpr ⟨hx, by simpa using hsk⟩
    rw [hfind] at hxf
    simpa using hxf
  refine ⟨?_, ?_, ?_⟩
  · unfold putItem deleteKey
    rw [List.filter_append, List.filter_append]
    have hnew_del :
        (List.filter
          (fun it => !(decide (it.get pkF = e.get pkF)
            && decide (it.get skF = skv))) [newItem]) = [newItem] := by
      simp [hnewpk]
    rw [hnew_del]
    have hnew_g :
        (List.filter (fun it => it.get skF == skv) [newItem]) = [newItem] := by
      simp [hnewsk]
    rw [hnew_g]
    have hleft :
        ((List.filter (fun it => !sameKey pkF skF it newItem) store).filter
            (fun it => !(decide (it.get pkF = e.get pkF)
              && decide (it.get skF = skv)))).filter
          (fun it => it.get skF == skv) = [] := by
      rw [List.filter_eq_nil_iff]
      intro x hx hg
      have h1 := List.mem_filter.mp hx
      have h2 := List.mem_filter.mp h1.1
      have hxe : x = e := hmem x h2.1 (by simpa using hg)
      subst hxe
      have hd := h1.2
      simp [he_sk] at hd
    rw [hleft, List.nil_append]
  · have : newItem ∈ (putItem pkF skF store newItem).filter
        (fun it => it.get skF == skv) := by
      refine List.mem_filter.mpr ⟨?_, by simpa using hnewsk⟩
      unfold putItem
      exact List.mem_append_right _ (List.mem_singleton.mpr rfl)
    exact List.ne_nil_of_mem this
  · rw [hfind]
    exact List.cons_ne_nil e []

/-- A job stored under category "Tech". -/
def relocJob : Obj :=
  [("category", Val.str "Tech"), ("jobId", Val.str "j1"), ("role", Val.str "Dev")]

/-- A patch that changes the category and also carries a different `jobId`. -/
def relocPatch : Obj :=
  [("category", Val.str "Finance"), ("jobId", Val.str "j2")]

/-- C1 counterexample: the claim quantifies over every patch that changes the
category and promises that afterwards exactly one item exists for the updated
sort-key value.  A patch that also rewrites the sort-key field is merged
wholesale into the relocated item, so after the relocation of `j1` no item
with `jobId = "j1"` exists at all. -/
theorem relocation_counterexample :
    (updateJob [relocJob] "j1" relocPatch).isRelocated = true
      ∧ ((updateJob [relocJob] "j1" relocPatch).postStore).map
          (fun post =>
            post.filter (fun it => it.get "jobId" == some (Val.str "j1")))
        = some []
      ∧ relocPatch.get "category" = some (Val.str "Finance")
      ∧ relocJob.get "category" = some (Val.str "Tech") := by
  refine ⟨?_, ?_, ?_, ?_⟩ <;> decide

/-- C1 as amended: for a jobs or internships update whose patch changes the
category *and does not rewrite the sort-key field*, the handler issues the
write of the merged item under the new partition key strictly before the
delete of the old `(oldPartitionKey, sortKey)`; the sort-key value is present
in the table at every one of the three states (before, between the two
writes, after), and after the update exactly one item carries it, addressable
under the new partition key. -/
theorem relocation_amended
    (store istore : Store) (e ie updates iupdates : Obj) (id iid : String)
    (nc inc : Val) (logoOf : Option Val → String) (now : String)
    (hjnd : updates.keys.Nodup)
    (hjfind : store.filter (fun it => it.get "jobId" == some (Val.str id)) = [e])
    (hjcat : updates.get "category" = some nc)
    (hjtr : nc.truthy = true)
    (hjne : ¬ some nc = e.get "category")
    (hjid : updates.get "jobId" = none ∨ updates.get "jobId" = some (Val.str id))
    (hind : iupdates.keys.Nodup)
    (hifind : istore.filter (fun it => it.get "id" == some (Val.str iid)) = [ie])
    (hicat : iupdates.get "category" = some inc)
    (hitr : inc.truthy = true)
    (hine : ¬ some inc = ie.get "category")
    (hiid : iupdates.get "id" = none ∨ iupdates.get "id" = some (Val.str iid)) :
    (∃ mid post newItem,
        updateJob store id updates = UpdateOutcome.relocated mid post newItem
        ∧ mid = putItem "category" "jobId" store newItem
        ∧ post = deleteKey "category" "jobId" mid (e.get "category")
            (some (Val.str id))
        ∧ newItem.get "category" = some nc
        ∧ post.filter (fun it => it.get "jobId" == some (Val.str id)) = [newItem]
        ∧ store.filter (fun it => it.get "jobId" == some (Val.str id)) ≠ []
        ∧ mid.filter (fun it => it.get "jobId" == some (Val.str id)) ≠ []
        ∧ post.filter (fun it => it.get "jobId" == some (Val.str id)) ≠ [])
    ∧ (∃ mid post newItem,
        updateInternship logoOf now istore iid iupdates
          = UpdateOutcome.relocated mid post newItem
        ∧ mid = putItem "category" "id" istore newItem
        ∧ post = deleteKey "category" "id" mid (ie.get "category")
            (some (Val.str iid))
        ∧ newItem.get "category" = some inc
        ∧ post.filter (fun it => it.get "id" == some (Val.str iid)) = [newItem]
        ∧ istore.filter (fun it => it.get "id" == some (Val.str iid)) ≠ []
        ∧ mid.filter (fun it => it.get "id" == some (Val.str iid)) ≠ []
        ∧ post.filter (fun it => it.get "id" == some (Val.str iid)) ≠ []) := by
  have he_sk : e.get "jobId" = some (Val.str id) := by
    have : e ∈ store.filter (fun it => it.get "jobId" == some (Val.str id)) := by
      rw [hjfind]
      exact List.mem_singleton.mpr rfl
    simpa using (List.mem_filter.mp this).2
  have hie_sk : ie.get "id" = some (Val.str iid) := by
    have : ie ∈ istore.filter (fun it => it.get "id" == some (Val.str iid)) := by
      rw [hifind]
      exact List.mem_singleton.mpr rfl
    simpa using (List.mem_filter.mp this).2
  constructor
  · -- jobs
    refine ⟨putItem "category" "jobId" store ((e.merge updates).set "category" nc),
      deleteKey "category" "jobId"
        (putItem "category" "jobId" store ((e.merge updates).set "category" nc))
        (e.get "category") (some (Val.str id)),
      (e.merge updates).set "category" nc, ?_, rfl, rfl, ?_, ?_, ?_, ?_, ?_⟩
    · simp only [updateJob, hjfind, hjcat, hjtr, hjne]
      simp [hjne]
    · exact Obj.get_set_same _ _ _
    all_goals {
      have hnewsk : ((e.merge updates).set "category" nc).get "jobId"
          = some (Val.str id) := by
        rw [Obj.get_set_ne _ _ _ _ (by decide)]
        rcases hjid with h | h
        · rw [Obj.merge_get_of_not_mem _ _ _ h]
          exact he_sk
        · exact Obj.merge_get_of_mem _ _ _ _ hjnd h
      have hnewpk : ¬ ((e.merge updates).set "category" nc).get "category"
          = e.get "category" := by
        rw [Obj.get_set_same]
        exact hjne
      have hmain := reloc_exactly_one "category" "jobId" store e
        ((e.merge updates).set "category" nc) (some (Val.str id)) hjfind
        hnewsk hnewpk
      first
        | exact hmain.1
        | exact hmain.2.2
        | exact hmain.2.1
        | { rw [hmain.1]; exact List.cons_ne_nil _ [] }
    }
  · -- internships
    refine ⟨putItem "category" "id" istore
        ((((ie.merge iupdates).set "category" inc).set "companyLogo"
            (match iupdates.get "company" with
              | some c =>
                  if c.truthy && !(some c == ie.get "company")
                  then Val.str (logoOf (some c))
                  else (ie.get "companyLogo").getD Val.null
              | none => (ie.get "companyLogo").getD Val.null)).set
          "lastUpdated" (Val.str now)),
      deleteKey "category" "id"
        (putItem "category" "id" istore
          ((((ie.merge iupdates).set "category" inc).set "companyLogo"
              (match iupdates.get "company" with
                | some c =>
                    if c.truthy && !(some c == ie.get "company")
                    then Val.str (logoOf (some c))
                    else (ie.get "companyLogo").getD Val.null
                | none => (ie.get "companyLogo").getD Val.null)).set
            "lastUpdated" (Val.str now)))
        (ie.get "category") (some (Val.str iid)),
      (((ie.merge iupdates).set "category" inc).set "companyLogo"
          (match iupdates.get "company" with
            | some c =>
                if c.truthy && !(some c == ie.get "company")
                then Val.str (logoOf (some c))
                else (ie.get "companyLogo").getD Val.null
            | none => (ie.get "companyLogo").getD Val.null)).set
        "lastUpdated" (Val.str now), ?_, rfl, rfl, ?_, ?_, ?_, ?_, ?_⟩
    · simp only [updateInternship, hifind, hicat, hitr, hine]
      simp [hine]
    · rw [Obj.get_set_ne _ _ _ _ (by decide), Obj.get_set_ne _ _ _ _ (by decide)]
      exact Obj.get_set_same _ _ _
    all_goals {
      have hnewsk :
          (((((ie.merge iupdates).set "category" inc).set "companyLogo"
              (match iupdates.get "company" with
                | some c =>
                    if c.truthy && !(some c == ie.get "company")
                    then Val.str (logoOf (some c))
                    else (ie.get "companyLogo").getD Val.null
                | none => (ie.get "companyLogo").getD Val.null)).set
            "lastUpdated" (Val.str now))).get "id" = some (Val.str iid) := by
        rw [Obj.get_set_ne _ _ _ _ (by decide),
          Obj.get_set_ne _ _ _ _ (by decide),
          Obj.get_set_ne _ _ _ _ (by decide)]
        rcases hiid with h | h
        · rw [Obj.merge_get_of_not_mem _ _ _ h]
          exact hie_sk
        · exact Obj.merge_get_of_mem _ _ _ _ hind h
      have hnewpk :
          ¬ (((((ie.merge iupdates).set "category" inc).set "companyLogo"
              (match iupdates.get "company" with
                | some c =>
                    if c.truthy && !(some c == ie.get "company")
                    then Val.str (logoOf (some c))
                    else (ie.get "companyLogo").getD Val.null
                | none => (ie.get "companyLogo").getD Val.null)).set
            "lastUpdated" (Val.str now))).get "category" = ie.get "category" := by
        rw [Obj.get_set_ne _ _ _ _ (by decide),
          Obj.get_set_ne _ _ _ _ (by decide), Obj.get_set_same]
        exact hine
      have hmain := reloc_exactly_one "category" "id" istore ie _
        (some (Val.str iid)) hifind hnewsk hnewpk
      first
        | exact hmain.1
        | exact hmain.2.2
        | exact hmain.2.1
        | { rw [hmain.1]; exact List.cons_ne_nil _ [] }
    }

def jobE : Obj := [("category", Val.str "Tech"), ("jobId", Val.str "j1")]

def jobPatch : Obj := [("category", Val.str "Fin")]

def internE : Obj :=
  [("category", Val.str "A"), ("id", Val.str "i1"),
    ("company", Val.str "Acme"), ("companyLogo", Val.str "L")]

def internPatch : Obj := [("category", Val.str "B")]

/-- Witness for C1-as-amended at a concrete input. -/
theorem relocation_amended_witness :
    (jobPatch.keys.Nodup
      ∧ ([jobE] : Store).filter
          (fun it => it.get "jobId" == some (Val.str "j1")) = [jobE]
      ∧ jobPatch.get "category" = some (Val.str "Fin")
      ∧ (Val.str "Fin").truthy = true
      ∧ ¬ some (Val.str "Fin") = jobE.get "category"
      ∧ (jobPatch.get "jobId" = none
          ∨ jobPatch.get "jobId" = some (Val.str "j1"))
      ∧ internPatch.keys.Nodup
      ∧ ([internE] : Store).filter
          (fun it => it.get "id" == some (Val.str "i1")) = [internE]
      ∧ internPatch.get "category" = some (Val.str "B")
      ∧ (Val.str "B").truthy = true
      ∧ ¬ some (Val.str "B") = internE.get "category"
      ∧ (internPatch.get "id" = none
          ∨ internPatch.get "id" = some (Val.str "i1")))
    ∧ ((∃ mid post newItem,
          updateJob [jobE] "j1" jobPatch
            = UpdateOutcome.relocated mid post newItem
          ∧ mid = putItem "category" "jobId" [jobE] newItem
          ∧ post = deleteKey "category" "jobId" mid (jobE.get "category")
              (some (Val.str "j1"))
          ∧ newItem.get "category" = some (Val.str "Fin")
          ∧ post.filter (fun it => it.get "jobId" == some (Val.str "j1"))
            = [newItem]
          ∧ ([jobE] : Store).filter
              (fun it => it.get "jobId" == some (Val.str "j1")) ≠ []
          ∧ mid.filter (fun it => it.get "jobId" == some (Val.str "j1")) ≠ []
          ∧ post.filter (fun it => it.get "jobId" == some (Val.str "j1")) ≠ [])
      ∧ (∃ mid post newItem,
          updateInternship (fun _ => "/placeholder-logo.svg") "2024-01-01"
              [internE] "i1" internPatch
            = UpdateOutcome.relocated mid post newItem
          ∧ mid = putItem "category" "id" [internE] newItem
          ∧ post = deleteKey "category" "id" mid (internE.get "category")
              (some (Val.str "i1"))
          ∧ newItem.get "category" = some (Val.str "B")
          ∧ post.filter (fun it => it.get "id" == some (Val.str "i1"))
            = [newItem]
          ∧ ([internE] : Store).filter
              (fun it => it.get "id" == some (Val.str "i1")) ≠ []
          ∧ mid.filter (fun it => it.get "id" == some (Val.str "i1")) ≠ []
          ∧ post.filter (fun it => it.get "id" == some (Val.str "i1")) ≠ [])) :=
  ⟨⟨by decide, by decide, by decide, by decide, by decide, by decide,
      by decide, by decide, by decide, by decide, by decide, by decide⟩,
    relocation_amended [jobE] [internE] jobE internE jobPatch internPatch
      "j1" "i1" (Val.str "Fin") (Val.str "B")
      (fun _ => "/placeholder-logo.svg") "2024-01-01"
      (by decide) (by decide) (by decide) (by decide) (by decide) (by decide)
      (by decide) (by decide) (by decide) (by decide) (by decide) (by decide)⟩

/-! ## Claim C5: in-place (non-relocating) updates -/

theorem applyAssigns_append (item : Obj) (l1 l2 : List ExprPiece) :
    applyAssigns item (l1 ++ l2) = applyAssigns (applyAssigns item l1) l2 := by
  induction l1 generalizing item with
  | nil => rfl
  | cons p rest ih =>
      cases p with
      | assign k v => simp [applyAssigns, ih]
      | comma => simp [applyAssigns, ih]

/-- The fields of a patch that the `SET` clause actually writes: those whose
key is not excluded, in patch order. -/
def includedFields (excl : List String) : List (String × Val) → List (String × Val)
  | [] => []
  | (k, v) :: rest =>
      if k ∈ excl then includedFields excl rest
      else (k, v) :: includedFields excl rest

theorem includedFields_sublist (excl : List String) :
    ∀ (l : List (String × Val)), List.Sublist (includedFields excl l) l
  | [] => List.Sublist.refl _
  | (k, v) :: rest => by
      by_cases hk : k ∈ excl
      · simp only [includedFields, if_pos hk]
        exact (includedFields_sublist excl rest).cons _
      · simp only [includedFields, if_neg hk]
        exact (includedFields_sublist excl rest).cons₂ _

theorem mem_includedFields (excl : List String) (kv : String × Val) :
    ∀ (l : List (String × Val)),
      kv ∈ includedFields excl l ↔ kv ∈ l ∧ kv.1 ∉ excl
  | [] => by simp [includedFields]
  | (k, v) :: rest => by
      by_cases hk : k ∈ excl
      · simp only [includedFields, if_pos hk, List.mem_cons,
          mem_includedFields excl kv rest]
        constructor
        · intro h
          exact ⟨Or.inr h.1, h.2⟩
        · rintro ⟨h1 | h1, h2⟩
          · subst h1
            exact absurd hk h2
          · exact ⟨h1, h2⟩
      · simp only [includedFields, if_neg hk, List.mem_cons,
          mem_includedFields excl kv rest]
        constructor
        · rintro (rfl | h)
          · exact ⟨Or.inl rfl, hk⟩
          · exact ⟨Or.inr h.1, h.2⟩
        · rintro ⟨rfl | h1, h2⟩
          · exact Or.inl rfl
          · exact Or.inr ⟨h1, h2⟩

/-- Running the built `SET` clause applies exactly the patch's non-excluded
fields (in order, with `tr` applied); excluded fields contribute nothing. -/
theorem applyAssigns_build (excl : List String) (tr : String → Val → Val)
    (n : Nat) :
    ∀ (i : Nat) (rest : List (String × Val)) (item : Obj),
      applyAssigns item (buildAssignsFrom excl tr n i rest)
        = (includedFields excl rest).foldl
            (fun it kv => it.set kv.1 (tr kv.1 kv.2)) item := by
  intro i rest
  induction rest generalizing i with
  | nil => intro item; rfl
  | cons kv rest ih =>
      intro item
      obtain ⟨k, v⟩ := kv
      by_cases hk : k ∈ excl
      · simp only [buildAssignsFrom, if_pos hk, List.nil_append,
          includedFields]
        exact ih (i + 1) item
      · by_cases hi : i < n - 1
        · simp only [buildAssignsFrom, if_neg hk, if_pos hi, List.cons_append,
            List.singleton_append, applyAssigns, includedFields,
            List.foldl_cons]
          exact ih (i + 1) _
        · simp only [buildAssignsFrom, if_neg hk, if_neg hi, List.nil_append,
            List.cons_append, applyAssigns, includedFields, List.foldl_cons]
          exact ih (i + 1) _

/-- When the patch's LAST key is not excluded, the index-based comma logic
produces a well-formed `SET` clause (the last index appends no comma, and
every earlier included key legitimately does). -/
theorem build_valid_last (excl : List String) (tr : String → Val → Val)
    (n : Nat) :
    ∀ (i : Nat) (rest : List (String × Val)) (k : String) (v : Val),
      rest.getLast? = some (k, v) → k ∉ excl → i + rest.length = n →
      piecesValid (buildAssignsFrom excl tr n i rest) = true := by
  intro i rest
  induction rest generalizing i with
  | nil =>
      intro k v h
      exact absurd h (by simp)
  | cons kv0 rest ih =>
      intro k v hlast hk hn
      obtain ⟨k0, v0⟩ := kv0
      cases rest with
      | nil =>
          simp only [List.getLast?_singleton, Option.some.injEq] at hlast
          cases hlast
          have hni : ¬ i < n - 1 := by
            simp only [List.length_cons, List.length_nil] at hn
            omega
          simp [buildAssignsFrom, if_neg hk, if_neg hni, piecesValid,
            piecesValidTail]
      | cons kv1 rest1 =>
          have hlast' : (kv1 :: rest1).getLast? = some (k, v) := by
            rw [← List.getLast?_cons_cons]
            exact hlast
          have hi : i < n - 1 := by
            simp only [List.length_cons] at hn
            omega
          have htail := ih (i + 1) k v hlast' hk
            (by simp only [List.length_cons] at hn ⊢; omega)
          by_cases hk0 : k0 ∈ excl
          · simp only [buildAssignsFrom, if_pos hk0, List.nil_append]
            exact htail
          · have hstep : buildAssignsFrom excl tr n i ((k0, v0) :: kv1 :: rest1)
                = ExprPiece.assign k0 (tr k0 v0) :: ExprPiece.comma
                    :: buildAssignsFrom excl tr n (i + 1) (kv1 :: rest1) := by
              simp [buildAssignsFrom, hk0, hi]
            rw [hstep]
            cases hb : buildAssignsFrom excl tr n (i + 1) (kv1 :: rest1) with
            | nil =>
                rw [hb] at htail
                simp [piecesValid] at htail
            | cons p t =>
                cases p with
                | comma =>
                    rw [hb] at htail
                    simp [piecesValid] at htail
                | assign k2 v2 =>
                    rw [hb] at htail
                    simp only [piecesValid] at htail
                    simp only [piecesValid, piecesValidTail]
                    exact htail

/-- When the patch's LAST key IS excluded, the built clause is empty or ends
in a dangling comma, so DynamoDB rejects it. -/
theorem build_invalid_last (excl : List String) (tr : String → Val → Val)
    (n : Nat) :
    ∀ (i : Nat) (rest : List (String × Val)) (k : String) (v : Val),
      rest.getLast? = some (k, v) → k ∈ excl → i + rest.length = n →
      piecesValid (buildAssignsFrom excl tr n i rest) = false := by
  intro i rest
  induction rest generalizing i with
  | nil =>
      intro k v h
      exact absurd h (by simp)
  | cons kv0 rest ih =>
      intro k v hlast hk hn
      obtain ⟨k0, v0⟩ := kv0
      cases rest with
      | nil =>
          simp only [List.getLast?_singleton, Option.some.injEq] at hlast
          cases hlast
          simp [buildAssignsFrom, if_pos hk, piecesValid]
      | cons kv1 rest1 =>
          have hlast' : (kv1 :: rest1).getLast? = some (k, v) := by
            rw [← List.getLast?_cons_cons]
            exact hlast
          have hi : i < n - 1 := by
            simp only [List.length_cons] at hn
            omega
          have htail := ih (i + 1) k v hlast' hk
            (by simp only [List.length_cons] at hn ⊢; omega)
          by_cases hk0 : k0 ∈ excl
          · simp only [buildAssignsFrom, if_pos hk0, List.nil_append]
            exact htail
          · have hstep : buildAssignsFrom excl tr n i ((k0, v0) :: kv1 :: rest1)
                = ExprPiece.assign k0 (tr k0 v0) :: ExprPiece.comma
                    :: buildAssignsFrom excl tr n (i + 1) (kv1 :: rest1) := by
              simp [buildAssignsFrom, hk0, hi]
            rw [hstep]
            cases hb : buildAssignsFrom excl tr n (i + 1) (kv1 :: rest1) with
            | nil => simp [piecesValid, piecesValidTail]
            | cons p t =>
                cases p with
                | comma => simp [piecesValid, piecesValidTail]
                | assign k2 v2 =>
                    rw [hb] at htail
                    simp only [piecesValid] at htail
                    simp only [piecesValid, piecesValidTail]
                    exact htail

/-- Appending `', lastUpdated = :lastUpdated'` preserves well-formedness in
both directions. -/
theorem validTail_append_eq (k : String) (v : Val) :
    ∀ (pieces : List ExprPiece),
      piecesValidTail (pieces ++ [ExprPiece.comma, ExprPiece.assign k v])
        = piecesValidTail pieces
  | [] => by simp [piecesValidTail]
  | ExprPiece.comma :: ExprPiece.assign k' v' :: rest => by
      simp only [List.cons_append, piecesValidTail]
      exact validTail_append_eq k v rest
  | ExprPiece.comma :: ExprPiece.comma :: rest => by
      simp [piecesValidTail]
  | [ExprPiece.comma] => by
      simp [piecesValidTail]
  | ExprPiece.assign _ _ :: rest => by
      simp [piecesValidTail]

theorem piecesValid_append_eq (pieces : List ExprPiece) (k : String) (v : Val) :
    piecesValid (pieces ++ [ExprPiece.comma, ExprPiece.assign k v])
      = piecesValid pieces := by
  cases pieces with
  | nil => simp [piecesValid, piecesValidTail]
  | cons p rest =>
      cases p with
      | assign k' v' =>
          simp only [List.cons_append, piecesValid]
          exact validTail_append_eq k v rest
      | comma => simp [piecesValid]

/-- A merge whose every binding already holds is the identity. -/
theorem Obj.merge_self (a b : Obj) (h : ∀ kv ∈ b, a.get kv.1 = some kv.2) :
    a.merge b = a := by
  induction b generalizing a with
  | nil => rfl
  | cons kv rest ih =>
      obtain ⟨k, v⟩ := kv
      show (a.set k v).merge rest = a
      rw [Obj.set_get_id a k v (h (k, v) (List.mem_cons_self _ _))]
      exact ih a (fun kv' h' => h kv' (List.mem_cons_of_mem _ h'))

/-- A fold of transformed assignments is a merge of the transformed list. -/
theorem merge_map_foldl (item : Obj) (l : List (String × Val))
    (tr : String → Val → Val) :
    l.foldl (fun it kv => it.set kv.1 (tr kv.1 kv.2)) item
      = item.merge (l.map (fun kv => (kv.1, tr kv.1 kv.2))) := by
  unfold Obj.merge
  rw [List.foldl_map]

theorem Obj.get_of_mem_nodup (o : Obj) (k : String) (v : Val)
    (hnd : o.keys.Nodup) (hm : (k, v) ∈ o) : o.get k = some v := by
  induction o with
  | nil => exact absurd hm (List.not_mem_nil _)
  | cons kv rest ih =>
      obtain ⟨k', v'⟩ := kv
      simp only [Obj.keys, List.map_cons, List.nodup_cons] at hnd
      rcases List.mem_cons.mp hm with h | h
      · cases h
        simp [Obj.get]
      · have hk : k' ≠ k := by
          intro he
          subst he
          exact hnd.1 (List.mem_map.mpr ⟨(k', v), h, rfl⟩)
        rw [Obj.get, if_neg hk]
        exact ih hnd.2 h

/-- A job whose `lastUpdated` is stale, to watch whether an update touches it. -/
def staleJob : Obj :=
  [("category", Val.str "Tech"), ("jobId", Val.str "j9"),
    ("role", Val.str "Dev"), ("lastUpdated", Val.str "2020-01-01")]

/-- C5 counterexample: the claim says every non-relocating update touches a
`lastUpdated` timestamp, so a no-op patch advances it.  The jobs handler
never writes `lastUpdated`: a no-op patch leaves the table and the returned
item completely unchanged, stale `lastUpdated` included. -/
theorem noop_update_counterexample :
    updateJob [staleJob] "j9" [("role", Val.str "Dev")]
        = UpdateOutcome.inPlace [staleJob] staleJob
      ∧ staleJob.get "lastUpdated" = some (Val.str "2020-01-01") := by
  refine ⟨?_, ?_⟩ <;> decide

/-- The item a non-relocating jobs update produces: the existing item with
every non-key patch field merged in (`jobId` and `category` are never
overwritten, and no `lastUpdated` is written). -/
def jobsMergedPatch (e updates : Obj) : Obj :=
  e.merge (includedFields ["jobId", "category"] updates)

/-- The item a non-relocating internships update produces: the existing item
with every non-key patch field merged in (`batch` re-coerced), plus a fresh
`lastUpdated`. -/
def internMergedPatch (ie iupdates : Obj) (now : String) : Obj :=
  (ie.merge ((includedFields ["id", "category"] iupdates).map
    (fun kv => (kv.1, if kv.1 = "batch" then coerceBatch kv.2 else kv.2)))).set
    "lastUpdated" (Val.str now)

/-- C5 as amended: a non-relocating update is applied field-by-field against
the unchanged key when the patch's key list ends in a non-key field: every
non-key patched field is written (internships re-coerce `batch`), the key
fields are never overwritten, untouched fields keep their values; the
internships handler additionally writes `lastUpdated` while the jobs handler
writes no `lastUpdated` at all, so a no-op patch leaves a jobs item — and the
whole table — completely unchanged and advances only `lastUpdated` for an
internship.  A patch whose key list ends in a key field (e.g. a trailing
unchanged `category`) makes the index-based comma logic emit a malformed
`SET` expression, and the request fails with a 500 instead. -/
theorem inplace_update_amended
    (store istore : Store) (e ie updates iupdates : Obj) (id iid : String)
    (lk ilk : String) (lv ilv : Val)
    (logoOf : Option Val → String) (now : String)
    (hfind : store.filter (fun it => it.get "jobId" == some (Val.str id)) = [e])
    (hnodup : updates.keys.Nodup)
    (hlast : updates.getLast? = some (lk, lv))
    (hlk : lk ∉ (["jobId", "category"] : List String))
    (hnoreloc : ∀ cv, updates.get "category" = some cv →
      cv.truthy = false ∨ some cv = e.get "category")
    (hifind : istore.filter (fun it => it.get "id" == some (Val.str iid)) = [ie])
    (hinodup : iupdates.keys.Nodup)
    (hilast : iupdates.getLast? = some (ilk, ilv))
    (hilk : ilk ∉ (["id", "category"] : List String))
    (hinoreloc : ∀ cv, iupdates.get "category" = some cv →
      cv.truthy = false ∨ some cv = ie.get "category") :
    (updateJob store id updates
        = UpdateOutcome.inPlace
            (store.map (fun it =>
              if it.get "category" = e.get "category"
                  && it.get "jobId" = some (Val.str id)
              then jobsMergedPatch e updates else it))
            (jobsMergedPatch e updates)
      ∧ (jobsMergedPatch e updates).get "jobId" = e.get "jobId"
      ∧ (jobsMergedPatch e updates).get "category" = e.get "category"
      ∧ (∀ kv ∈ updates, kv.1 ≠ "jobId" → kv.1 ≠ "category" →
          (jobsMergedPatch e updates).get kv.1 = some kv.2)
      ∧ (∀ k, k ∉ updates.keys →
          (jobsMergedPatch e updates).get k = e.get k)
      ∧ ((∀ kv ∈ updates, e.get kv.1 = some kv.2) →
          updateJob store id updates = UpdateOutcome.inPlace store e)
      ∧ (∀ (bad : Obj) (cv bv : Val) (bk : String),
          bad.getLast? = some (bk, bv) → bk = "jobId" ∨ bk = "category" →
          bad.get "category" = some cv → some cv = e.get "category" →
          updateJob store id bad = UpdateOutcome.err500))
    ∧ (updateInternship logoOf now istore iid iupdates
        = UpdateOutcome.inPlace
            (istore.map (fun it =>
              if it.get "category" = ie.get "category"
                  && it.get "id" = some (Val.str iid)
              then internMergedPatch ie iupdates now else it))
            (internMergedPatch ie iupdates now)
      ∧ (internMergedPatch ie iupdates now).get "id" = ie.get "id"
      ∧ (internMergedPatch ie iupdates now).get "category" = ie.get "category"
      ∧ (internMergedPatch ie iupdates now).get "lastUpdated"
        = some (Val.str now)
      ∧ (∀ kv ∈ iupdates, kv.1 ≠ "id" → kv.1 ≠ "category" →
          kv.1 ≠ "lastUpdated" →
          (internMergedPatch ie iupdates now).get kv.1
            = some (if kv.1 = "batch" then coerceBatch kv.2 else kv.2))
      ∧ (∀ k, k ∉ iupdates.keys → k ≠ "lastUpdated" →
          (internMergedPatch ie iupdates now).get k = ie.get k)
      ∧ ((∀ kv ∈ iupdates,
            ie.get kv.1
              = some (if kv.1 = "batch" then coerceBatch kv.2 else kv.2)) →
          ∀ k, k ≠ "lastUpdated" →
            (internMergedPatch ie iupdates now).get k = ie.get k)
      ∧ (∀ (bad : Obj) (cv bv : Val) (bk : String),
          bad.getLast? = some (bk, bv) → bk = "id" ∨ bk = "category" →
          bad.get "category" = some cv → some cv = ie.get "category" →
          updateInternship logoOf now istore iid bad
            = UpdateOutcome.err500)) := by
  have hmemj : ∀ x, x ∈ store → x.get "jobId" = some (Val.str id) → x = e := by
    intro x hx hsk
    have hxf : x ∈ store.filter (fun it => it.get "jobId" == some (Val.str id)) :=
      List.mem_filter.mpr ⟨hx, by simpa using hsk⟩
    rw [hfind] at hxf
    simpa using hxf
  have hmemi : ∀ x, x ∈ istore → x.get "id" = some (Val.str iid) → x = ie := by
    intro x hx hsk
    have hxf : x ∈ istore.filter (fun it => it.get "id" == some (Val.str iid)) :=
      List.mem_filter.mpr ⟨hx, by simpa using hsk⟩
    rw [hifind] at hxf
    simpa using hxf
  constructor
  · -- jobs half
    have hjp : ∀ k', k' ∈ Obj.keys (includedFields ["jobId", "category"] updates) →
        k' ∈ updates.keys ∧ k' ≠ "jobId" ∧ k' ≠ "category" := by
      intro k' hk'
      simp only [Obj.keys] at hk' ⊢
      obtain ⟨kv, hkv, hfst⟩ := List.mem_map.mp hk'
      have h1 := (mem_includedFields _ kv _).mp hkv
      have h2 : kv.1 ∉ (["jobId", "category"] : List String) := h1.2
      subst hfst
      refine ⟨List.mem_map.mpr ⟨kv, h1.1, rfl⟩, ?_, ?_⟩
      · intro he
        exact h2 (by simp [he])
      · intro he
        exact h2 (by simp [he])
    have hjnd2 : (Obj.keys (includedFields ["jobId", "category"] updates)).Nodup := by
      show ((includedFields ["jobId", "category"] updates).map Prod.fst).Nodup
      exact List.Nodup.sublist
        ((includedFields_sublist _ _).map Prod.fst) hnodup
    have hvalidj := build_valid_last ["jobId", "category"] (fun _ v => v)
      updates.length 0 updates lk lv hlast hlk (by simp)
    have happlyj : applyAssigns e
        (buildAssignsFrom ["jobId", "category"] (fun _ v => v)
          updates.length 0 updates) = jobsMergedPatch e updates := by
      rw [applyAssigns_build]
      rfl
    have hmapj : ∀ x ∈ store,
        (if x.get "category" = e.get "category"
            && x.get "jobId" = some (Val.str id)
          then applyAssigns x
            (buildAssignsFrom ["jobId", "category"] (fun _ v => v)
              updates.length 0 updates)
          else x)
        = (if x.get "category" = e.get "category"
            && x.get "jobId" = some (Val.str id)
          then jobsMergedPatch e updates else x) := by
      intro x hx
      by_cases hc : x.get "category" = e.get "category"
          ∧ x.get "jobId" = some (Val.str id)
      · have hxe : x = e := hmemj x hx hc.2
        subst hxe
        rw [if_pos (by simp [hc.1, hc.2]), if_pos (by simp [hc.1, hc.2])]
        exact happlyj
      · have hcond : ¬ ((x.get "category" = e.get "category"
            && x.get "jobId" = some (Val.str id)) = true) := by
          simp only [Bool.and_eq_true, decide_eq_true_eq]
          exact hc
        rw [if_neg hcond, if_neg hcond]
    have hbranchj : (match updateItemAt "category" "jobId" store
          (e.get "category") (some (Val.str id))
          (buildAssignsFrom ["jobId", "category"] (fun _ v => v)
            updates.length 0 updates) with
        | some post => UpdateOutcome.inPlace post
            (applyAssigns e
              (buildAssignsFrom ["jobId", "category"] (fun _ v => v)
                updates.length 0 updates))
        | none => UpdateOutcome.err500)
        = UpdateOutcome.inPlace
            (store.map (fun it =>
              if it.get "category" = e.get "category"
                  && it.get "jobId" = some (Val.str id)
              then jobsMergedPatch e updates else it))
            (jobsMergedPatch e updates) := by
      simp only [updateItemAt, hvalidj, if_true]
      rw [List.map_congr_left hmapj, happlyj]
    have hmainj : updateJob store id updates
        = UpdateOutcome.inPlace
            (store.map (fun it =>
              if it.get "category" = e.get "category"
                  && it.get "jobId" = some (Val.str id)
              then jobsMergedPatch e updates else it))
            (jobsMergedPatch e updates) := by
      cases hcat : updates.get "category" with
      | none =>
          simp only [updateJob, hfind, hcat]
          exact hbranchj
      | some cv =>
          rcases hnoreloc cv hcat with htr | heq
          · simp only [updateJob, hfind, hcat, htr, Bool.false_and,
              Bool.false_eq_true, if_false]
            exact hbranchj
          · have hbeq : (some cv == e.get "category") = true := by
              simp [heq]
            simp only [updateJob, hfind, hcat, hbeq, Bool.not_true,
              Bool.and_false, Bool.false_eq_true, if_false]
            exact hbranchj
    refine ⟨hmainj, ?_, ?_, ?_, ?_, ?_, ?_⟩
    · show (e.merge _).get "jobId" = e.get "jobId"
      exact Obj.merge_get_of_not_mem _ _ _
        (Obj.get_none_of_not_mem_keys _ _ (fun h => (hjp _ h).2.1 rfl))
    · show (e.merge _).get "category" = e.get "category"
      exact Obj.merge_get_of_not_mem _ _ _
        (Obj.get_none_of_not_mem_keys _ _ (fun h => (hjp _ h).2.2 rfl))
    · intro kv hkv h1 h2
      show (e.merge _).get kv.1 = some kv.2
      exact Obj.merge_get_of_mem _ _ _ _ hjnd2
        (Obj.get_of_mem_nodup _ _ _ hjnd2
          ((mem_includedFields _ kv _).mpr ⟨hkv, by simp [h1, h2]⟩))
    · intro k hk
      show (e.merge _).get k = e.get k
      exact Obj.merge_get_of_not_mem _ _ _
        (Obj.get_none_of_not_mem_keys _ _ (fun h => hk (hjp _ h).1))
    · intro hnoop
      have hMe : jobsMergedPatch e updates = e := by
        show e.merge _ = e
        exact Obj.merge_self _ _
          (fun kv hkv => hnoop kv ((mem_includedFields _ kv _).mp hkv).1)
      rw [hmainj, hMe]
      have : store.map (fun it =>
          if it.get "category" = e.get "category"
              && it.get "jobId" = some (Val.str id)
          then e else it) = store := by
        conv_rhs => rw [← List.map_id store]
        apply List.map_congr_left
        intro x hx
        by_cases hc : x.get "category" = e.get "category"
            ∧ x.get "jobId" = some (Val.str id)
        · have hxe : x = e := hmemj x hx hc.2
          subst hxe
          simp [hc.1, hc.2]
        · have hcond : ¬ ((x.get "category" = e.get "category"
              && x.get "jobId" = some (Val.str id)) = true) := by
            simp only [Bool.and_eq_true, decide_eq_true_eq]
            exact hc
          rw [if_neg hcond]
          rfl
      rw [this]
    · intro bad cv bv bk hblast hbk hbcat hbeq
      have hbkmem : bk ∈ (["jobId", "category"] : List String) := by
        rcases hbk with rfl | rfl <;> simp
      have hbinvalid := build_invalid_last ["jobId", "category"] (fun _ v => v)
        bad.length 0 bad bk bv hblast hbkmem (by simp)
      have hbeq2 : (some cv == e.get "category") = true := by
        simp [hbeq]
      simp only [updateJob, hfind, hbcat, hbeq2, Bool.not_true,
        Bool.and_false, Bool.false_eq_true, if_false, updateItemAt,
        hbinvalid]
  · -- internships half
    have hip : ∀ k', k' ∈ Obj.keys ((includedFields ["id", "category"] iupdates).map
          (fun kv => (kv.1, if kv.1 = "batch" then coerceBatch kv.2 else kv.2))) →
        k' ∈ iupdates.keys ∧ k' ≠ "id" ∧ k' ≠ "category" := by
      intro k' hk'
      simp only [Obj.keys, List.map_map] at hk'
      obtain ⟨kv, hkv, hfst⟩ := List.mem_map.mp hk'
      have h1 := (mem_includedFields _ kv _).mp hkv
      have h2 : kv.1 ∉ (["id", "category"] : List String) := h1.2
      have hfst2 : kv.1 = k' := hfst
      subst hfst2
      refine ⟨List.mem_map.mpr ⟨kv, h1.1, rfl⟩, ?_, ?_⟩
      · intro he
        exact h2 (by simp [he])
      · intro he
        exact h2 (by simp [he])
    have hind2 : (Obj.keys ((includedFields ["id", "category"] iupdates).map
          (fun kv => (kv.1, if kv.1 = "batch" then coerceBatch kv.2 else kv.2)))).Nodup := by
      have h1 : Obj.keys ((includedFields ["id", "category"] iupdates).map
            (fun kv => (kv.1, if kv.1 = "batch" then coerceBatch kv.2 else kv.2)))
          = (includedFields ["id", "category"] iupdates).map
            Prod.fst := by
        simp only [Obj.keys, List.map_map]
        rfl
      rw [h1]
      exact List.Nodup.sublist
        ((includedFields_sublist _ _).map Prod.fst) hinodup
    have hvalidi : piecesValid
        (buildAssignsFrom ["id", "category"]
            (fun k v => if k = "batch" then coerceBatch v else v)
            iupdates.length 0 iupdates
          ++ [ExprPiece.comma, ExprPiece.assign "lastUpdated" (Val.str now)])
        = true := by
      rw [piecesValid_append_eq]
      exact build_valid_last ["id", "category"]
        (fun k v => if k = "batch" then coerceBatch v else v)
        iupdates.length 0 iupdates ilk ilv hilast hilk (by simp)
    have hfoldi : (includedFields ["id", "category"] iupdates).foldl
          (fun it kv => it.set kv.1
            (if kv.1 = "batch" then coerceBatch kv.2 else kv.2)) ie
        = ie.merge ((includedFields ["id", "category"] iupdates).map
          (fun kv => (kv.1, if kv.1 = "batch" then coerceBatch kv.2 else kv.2))) :=
      merge_map_foldl ie _ (fun k v => if k = "batch" then coerceBatch v else v)
    have happlyi : applyAssigns ie
        (buildAssignsFrom ["id", "category"]
            (fun k v => if k = "batch" then coerceBatch v else v)
            iupdates.length 0 iupdates
          ++ [ExprPiece.comma, ExprPiece.assign "lastUpdated" (Val.str now)])
        = internMergedPatch ie iupdates now := by
      rw [applyAssigns_append, applyAssigns_build, hfoldi]
      rfl
    have hmapi : ∀ x ∈ istore,
        (if x.get "category" = ie.get "category"
            && x.get "id" = some (Val.str iid)
          then applyAssigns x
            (buildAssignsFrom ["id", "category"]
                (fun k v => if k = "batch" then coerceBatch v else v)
                iupdates.length 0 iupdates
              ++ [ExprPiece.comma, ExprPiece.assign "lastUpdated" (Val.str now)])
          else x)
        = (if x.get "category" = ie.get "category"
            && x.get "id" = some (Val.str iid)
          then internMergedPatch ie iupdates now else x) := by
      intro x hx
      by_cases hc : x.get "category" = ie.get "category"
          ∧ x.get "id" = some (Val.str iid)
      · have hxe : x = ie := hmemi x hx hc.2
        subst hxe
        rw [if_pos (by simp [hc.1, hc.2]), if_pos (by simp [hc.1, hc.2])]
        exact happlyi
      · have hcond : ¬ ((x.get "category" = ie.get "category"
            && x.get "id" = some (Val.str iid)) = true) := by
          simp only [Bool.and_eq_true, decide_eq_true_eq]
          exact hc
        rw [if_neg hcond, if_neg hcond]
    have hbranchi : (match updateItemAt "category" "id" istore
          (ie.get "category") (some (Val.str iid))
          (buildAssignsFrom ["id", "category"]
              (fun k v => if k = "batch" then coerceBatch v else v)
              iupdates.length 0 iupdates
            ++ [ExprPiece.comma, ExprPiece.assign "lastUpdated" (Val.str now)]) with
        | some post => UpdateOutcome.inPlace post
            (applyAssigns ie
              (buildAssignsFrom ["id", "category"]
                  (fun k v => if k = "batch" then coerceBatch v else v)
                  iupdates.length 0 iupdates
                ++ [ExprPiece.comma, ExprPiece.assign "lastUpdated" (Val.str now)]))
        | none => UpdateOutcome.err500)
        = UpdateOutcome.inPlace
            (istore.map (fun it =>
              if it.get "category" = ie.get "category"
                  && it.get "id" = some (Val.str iid)
              then internMergedPatch ie iupdates now else it))
            (internMergedPatch ie iupdates now) := by
      simp only [updateItemAt, hvalidi, if_true]
      rw [List.map_congr_left hmapi, happlyi]
    have hmaini : updateInternship logoOf now istore iid iupdates
        = UpdateOutcome.inPlace
            (istore.map (fun it =>
              if it.get "category" = ie.get "category"
                  && it.get "id" = some (Val.str iid)
              then internMergedPatch ie iupdates now else it))
            (internMergedPatch ie iupdates now) := by
      cases hcat : iupdates.get "category" with
      | none =>
          simp only [updateInternship, hifind, hcat]
          exact hbranchi
      | some cv =>
          rcases hinoreloc cv hcat with htr | heq
          · simp only [updateInternship, hifind, hcat, htr, Bool.false_and,
              Bool.false_eq_true, if_false]
            exact hbranchi
          · have hbeq : (some cv == ie.get "category") = true := by
              simp [heq]
            simp only [updateInternship, hifind, hcat, hbeq, Bool.not_true,
              Bool.and_false, Bool.false_eq_true, if_false]
            exact hbranchi
    refine ⟨hmaini, ?_, ?_, Obj.get_set_same _ _ _, ?_, ?_, ?_, ?_⟩
    · show ((ie.merge _).set "lastUpdated" _).get "id" = ie.get "id"
      rw [Obj.get_set_ne _ _ _ _ (by decide)]
      exact Obj.merge_get_of_not_mem _ _ _
        (Obj.get_none_of_not_mem_keys _ _ (fun h => (hip _ h).2.1 rfl))
    · show ((ie.merge _).set "lastUpdated" _).get "category" = ie.get "category"
      rw [Obj.get_set_ne _ _ _ _ (by decide)]
      exact Obj.merge_get_of_not_mem _ _ _
        (Obj.get_none_of_not_mem_keys _ _ (fun h => (hip _ h).2.2 rfl))
    · intro kv hkv h1 h2 h3
      show ((ie.merge _).set "lastUpdated" _).get kv.1 = _
      rw [Obj.get_set_ne _ _ _ _ (Ne.symm h3)]
      exact Obj.merge_get_of_mem _ _ _ _ hind2
        (Obj.get_of_mem_nodup _ _ _ hind2
          (List.mem_map.mpr
            ⟨kv, (mem_includedFields _ kv _).mpr ⟨hkv, by simp [h1, h2]⟩, rfl⟩))
    · intro k hk hkl
      show ((ie.merge _).set "lastUpdated" _).get k = ie.get k
      rw [Obj.get_set_ne _ _ _ _ (Ne.symm hkl)]
      exact Obj.merge_get_of_not_mem _ _ _
        (Obj.get_none_of_not_mem_keys _ _ (fun h => hk (hip _ h).1))
    · intro hno k hkl
      have hMe : ie.merge ((includedFields ["id", "category"] iupdates).map
            (fun kv => (kv.1, if kv.1 = "batch" then coerceBatch kv.2 else kv.2)))
          = ie := by
        apply Obj.merge_self
        intro kv' hkv'
        obtain ⟨kv, hkv, rfl⟩ := List.mem_map.mp hkv'
        exact hno kv ((mem_includedFields _ kv _).mp hkv).1
      show ((ie.merge _).set "lastUpdated" _).get k = ie.get k
      rw [hMe, Obj.get_set_ne _ _ _ _ (Ne.symm hkl)]
    · intro bad cv bv bk hblast hbk hbcat hbeq
      have hbkmem : bk ∈ (["id", "category"] : List String) := by
        rcases hbk with rfl | rfl <;> simp
      have hbinvalid : piecesValid
          (buildAssignsFrom ["id", "category"]
              (fun k v => if k = "batch" then coerceBatch v else v)
              bad.length 0 bad
            ++ [ExprPiece.comma, ExprPiece.assign "lastUpdated" (Val.str now)])
          = false := by
        rw [piecesValid_append_eq]
        exact build_invalid_last ["id", "category"]
          (fun k v => if k = "batch" then coerceBatch v else v)
          bad.length 0 bad bk bv hblast hbkmem (by simp)
      have hbeq2 : (some cv == ie.get "category") = true := by
        simp [hbeq]
      simp only [updateInternship, hifind, hbcat, hbeq2, Bool.not_true,
        Bool.and_false, Bool.false_eq_true, if_false, updateItemAt,
        hbinvalid]

def c5intern : Obj :=
  [("category", Val.str "A"), ("id", Val.str "i7"), ("title", Val.str "Old")]

/-- The witness patch for the jobs half: an unchanged `category` in non-final
position followed by a real field change. -/
def jPatch : Obj := [("category", Val.str "Tech"), ("role", Val.str "Newer")]

def iPatch : Obj := [("title", Val.str "New")]

/-- Witness for C5-as-amended at a concrete input. -/
theorem inplace_update_amended_witness :
    (([staleJob] : Store).filter
          (fun it => it.get "jobId" == some (Val.str "j9")) = [staleJob]
      ∧ jPatch.keys.Nodup
      ∧ jPatch.getLast? = some ("role", Val.str "Newer")
      ∧ "role" ∉ (["jobId", "category"] : List String)
      ∧ ([c5intern] : Store).filter
          (fun it => it.get "id" == some (Val.str "i7")) = [c5intern]
      ∧ iPatch.keys.Nodup
      ∧ iPatch.getLast? = some ("title", Val.str "New")
      ∧ "title" ∉ (["id", "category"] : List String))
    ∧ ((updateJob [staleJob] "j9" jPatch
          = UpdateOutcome.inPlace
              (([staleJob] : Store).map (fun it =>
                if it.get "category" = staleJob.get "category"
                    && it.get "jobId" = some (Val.str "j9")
                then jobsMergedPatch staleJob jPatch else it))
              (jobsMergedPatch staleJob jPatch)
        ∧ (jobsMergedPatch staleJob jPatch).get "jobId" = staleJob.get "jobId"
        ∧ (jobsMergedPatch staleJob jPatch).get "category"
          = staleJob.get "category"
        ∧ (∀ kv ∈ jPatch, kv.1 ≠ "jobId" → kv.1 ≠ "category" →
            (jobsMergedPatch staleJob jPatch).get kv.1 = some kv.2)
        ∧ (∀ k, k ∉ jPatch.keys →
            (jobsMergedPatch staleJob jPatch).get k = staleJob.get k)
        ∧ ((∀ kv ∈ jPatch, staleJob.get kv.1 = some kv.2) →
            updateJob [staleJob] "j9" jPatch
              = UpdateOutcome.inPlace [staleJob] staleJob)
        ∧ (∀ (bad : Obj) (cv bv : Val) (bk : String),
            bad.getLast? = some (bk, bv) → bk = "jobId" ∨ bk = "category" →
            bad.get "category" = some cv → some cv = staleJob.get "category" →
            updateJob [staleJob] "j9" bad = UpdateOutcome.err500))
      ∧ (updateInternship (fun _ => "/placeholder-logo.svg") "2024-06-01"
            [c5intern] "i7" iPatch
          = UpdateOutcome.inPlace
              (([c5intern] : Store).map (fun it =>
                if it.get "category" = c5intern.get "category"
                    && it.get "id" = some (Val.str "i7")
                then internMergedPatch c5intern iPatch "2024-06-01" else it))
              (internMergedPatch c5intern iPatch "2024-06-01")
        ∧ (internMergedPatch c5intern iPatch "2024-06-01").get "id"
          = c5intern.get "id"
        ∧ (internMergedPatch c5intern iPatch "2024-06-01").get "category"
          = c5intern.get "category"
        ∧ (internMergedPatch c5intern iPatch "2024-06-01").get "lastUpdated"
          = some (Val.str "2024-06-01")
        ∧ (∀ kv ∈ iPatch, kv.1 ≠ "id" → kv.1 ≠ "category" →
            kv.1 ≠ "lastUpdated" →
            (internMergedPatch c5intern iPatch "2024-06-01").get kv.1
              = some (if kv.1 = "batch" then coerceBatch kv.2 else kv.2))
        ∧ (∀ k, k ∉ iPatch.keys → k ≠ "lastUpdated" →
            (internMergedPatch c5intern iPatch "2024-06-01").get k
              = c5intern.get k)
        ∧ ((∀ kv ∈ iPatch,
              c5intern.get kv.1
                = some (if kv.1 = "batch" then coerceBatch kv.2 else kv.2)) →
            ∀ k, k ≠ "lastUpdated" →
              (internMergedPatch c5intern iPatch "2024-06-01").get k
                = c5intern.get k)
        ∧ (∀ (bad : Obj) (cv bv : Val) (bk : String),
            bad.getLast? = some (bk, bv) → bk = "id" ∨ bk = "category" →
            bad.get "category" = some cv → some cv = c5intern.get "category" →
            updateInternship (fun _ => "/placeholder-logo.svg") "2024-06-01"
                [c5intern] "i7" bad
              = UpdateOutcome.err500))) :=
  ⟨⟨by decide, by decide, by decide, by decide, by decide, by decide,
      by decide, by decide⟩,
    inplace_update_amended [staleJob] [c5intern] staleJob c5intern
      jPatch iPatch "j9" "i7" "role" "title" (Val.str "Newer") (Val.str "New")
      (fun _ => "/placeholder-logo.svg") "2024-06-01"
      (by decide) (by decide) (by decide) (by decide)
      (by
        intro cv h
        have h2 : Val.str "Tech" = cv := Option.some.inj h
        subst h2
        exact Or.inr (by decide))
      (by decide) (by decide) (by decide) (by decide)
      (by
        intro cv h
        exact Option.noConfusion h)⟩

/-! ## Claim C8: the generative-scoring fallback (`aiController.callGeminiAPI`) -/

structure ScoreResult where
  compatibilityScore : Nat
  strengths : List String
  weaknesses : List String
  improvements : List String
  matchingSkills : List String
  missingSkills : List String
deriving DecidableEq

/-- The canned payload: fixed lists, but a score of
`Math.floor(Math.random() * 40) + 60`; `rand` is the external draw
`Math.floor(Math.random() * 40)`, a value in `0..39`. -/
def mockScoreResult (rand : Nat) : ScoreResult :=
  ScoreResult.mk (rand + 60)
    ["Strong technical background in relevant technologies",
      "Good educational qualifications",
      "Relevant work experience",
      "Problem-solving skills demonstrated"]
    ["Limited experience with specific frameworks mentioned in job",
      "Could improve communication skills section",
      "Missing some industry certifications"]
    ["Add more specific project details and outcomes",
      "Include relevant certifications or courses",
      "Highlight leadership and teamwork experiences",
      "Quantify achievements with numbers and metrics",
      "Tailor skills section to match job requirements"]
    ["JavaScript", "React", "Node.js", "Problem Solving"]
    ["AWS", "Docker", "Kubernetes", "CI/CD"]

/-- Oracle for the external call plus response parse: `ok` is a successfully
parsed payload, `parseFail` a response body that fails `JSON.parse` after
code-fence stripping, `callFail` any axios failure or timeout. -/
inductive GeminiOutcome where
  | ok : ScoreResult → GeminiOutcome
  | parseFail : GeminiOutcome
  | callFail : GeminiOutcome

/-- `callGeminiAPI`: with a (truthy) API key, return the parsed payload on
success; any failure inside the `try` lands in the `catch`, which returns the
mock payload; with no key, return the mock payload directly. -/
def callGeminiAPI (apiKey : Option String) (outcome : GeminiOutcome)
    (rand : Nat) : ScoreResult :=
  match apiKey with
  | some k =>
      if k = "" then mockScoreResult rand
      else
        match outcome with
        | .ok parsed => parsed
        | .parseFail => mockScoreResult rand
        | .callFail => mockScoreResult rand
  | none => mockScoreResult rand

/-- C8 counterexample: the claim says any two failing runs return equal
payloads.  The fallback's `compatibilityScore` is freshly random on every
run: draws `0` and `20` give scores `60` and `80`. -/
theorem gemini_fallback_counterexample :
    callGeminiAPI (some "key") GeminiOutcome.callFail 0
        ≠ callGeminiAPI (some "key") GeminiOutcome.callFail 20
      ∧ (callGeminiAPI (some "key")
          GeminiOutcome.callFail 0).compatibilityScore = 60
      ∧ (callGeminiAPI (some "key")
          GeminiOutcome.callFail 20).compatibilityScore = 80 := by
  refine ⟨?_, ?_, ?_⟩ <;> decide

/-- C8 as amended: every call failure, timeout, or parse failure is absorbed
and answered with the mock payload, never propagated; two failing runs agree
on all the list fields (they are fixed), but the `compatibilityScore` is a
fresh random value in `60..99`, so the fallback payload is not fixed. -/
theorem gemini_fallback_amended (k : String) (rand rnd2 : Nat)
    (hk : k ≠ "") (hr : rand ≤ 39) :
    (callGeminiAPI (some k) GeminiOutcome.callFail rand = mockScoreResult rand
      ∧ callGeminiAPI (some k) GeminiOutcome.parseFail rand
        = mockScoreResult rand
      ∧ callGeminiAPI none GeminiOutcome.callFail rand = mockScoreResult rand)
    ∧ ((mockScoreResult rand).strengths = (mockScoreResult rnd2).strengths
      ∧ (mockScoreResult rand).weaknesses = (mockScoreResult rnd2).weaknesses
      ∧ (mockScoreResult rand).improvements
        = (mockScoreResult rnd2).improvements
      ∧ (mockScoreResult rand).matchingSkills
        = (mockScoreResult rnd2).matchingSkills
      ∧ (mockScoreResult rand).missingSkills
        = (mockScoreResult rnd2).missingSkills)
    ∧ (60 ≤ (mockScoreResult rand).compatibilityScore
      ∧ (mockScoreResult rand).compatibilityScore ≤ 99) := by
  refine ⟨⟨?_, ?_, rfl⟩, ⟨rfl, rfl, rfl, rfl, rfl⟩, ?_, ?_⟩
  · simp [callGeminiAPI, hk]
  · simp [callGeminiAPI, hk]
  · simp [mockScoreResult]
  · simp [mockScoreResult]
    omega

/-- Witness for C8-as-amended at a concrete input. -/
theorem gemini_fallback_amended_witness :
    ("key" ≠ "" ∧ 7 ≤ 39)
    ∧ ((callGeminiAPI (some "key") GeminiOutcome.callFail 7
          = mockScoreResult 7
        ∧ callGeminiAPI (some "key") GeminiOutcome.parseFail 7
          = mockScoreResult 7
        ∧ callGeminiAPI none GeminiOutcome.callFail 7 = mockScoreResult 7)
      ∧ ((mockScoreResult 7).strengths = (mockScoreResult 11).strengths
        ∧ (mockScoreResult 7).weaknesses = (mockScoreResult 11).weaknesses
        ∧ (mockScoreResult 7).improvements = (mockScoreResult 11).improvements
        ∧ (mockScoreResult 7).matchingSkills
          = (mockScoreResult 11).matchingSkills
        ∧ (mockScoreResult 7).missingSkills
          = (mockScoreResult 11).missingSkills)
      ∧ (60 ≤ (mockScoreResult 7).compatibilityScore
        ∧ (mockScoreResult 7).compatibilityScore ≤ 99)) :=
  ⟨⟨by decide, by decide⟩,
    gemini_fallback_amended "key" 7 11 (by decide) (by decide)⟩

/-! ## Claim C9: the logo resolver (`getCompanyLogo` / `getProviderLogo`) -/

structure HttpResp where
  status : Nat
  responseUrl : String

/-- The Clearbit URL derived from a name: lower-cased, all whitespace
stripped (`replace(/\s+/g, '')`), `.com` appended. -/
def logoUrlFor (name : String) : String :=
  "https://logo.clearbit.com/"
    ++ String.mk ((lowerChars name).filter (fun c => !c.isWhitespace))
    ++ ".com"

/-- The external HTTP GET; `Except.error` is a network failure or timeout. -/
def HttpOracle : Type := String → Except Unit HttpResp

/-- The walking / certifications variant
(`validateStatus: status < 500`, so axios throws only on network failure,
timeout or 5xx, all caught): a 200 returns the derived URL itself, anything
else falls through to the placeholder. -/
def getCompanyLogoW (http : HttpOracle) (name : String) : String :=
  match http (logoUrlFor name) with
  | .error _ => "/placeholder-logo.svg"
  | .ok r =>
      if r.status < 500 then
        if r.status = 200 then logoUrlFor name else "/placeholder-logo.svg"
      else "/placeholder-logo.svg"

/-- The internships variant (`validateStatus: status < 400`, rejections
caught): an accepted status returns `response.request.res.responseUrl`, the
final URL of the request. -/
def getCompanyLogoI (http : HttpOracle) (name : String) : String :=
  match http (logoUrlFor name) with
  | .error _ => "/placeholder-logo.svg"
  | .ok r =>
      if r.status < 400 then r.responseUrl else "/placeholder-logo.svg"

/-- An oracle on which the Clearbit lookup for "Acme" succeeds (status 200)
but was redirected, so the final request URL differs from the requested
one. -/
def redirectHttp : HttpOracle := fun u =>
  if u = logoUrlFor "Acme"
  then Except.ok (HttpResp.mk 200 "https://img.example.net/acme-logo.png")
  else Except.error ()

/-- C9 counterexample: under a redirecting success the internships variant
returns the redirect target — `response.request.res.responseUrl` — which is
neither the URL derived from the name nor the placeholder, refuting "the
result is either the derived URL or the placeholder". -/
theorem logo_redirect_counterexample :
    getCompanyLogoI redirectHttp "Acme" = "https://img.example.net/acme-logo.png"
      ∧ ¬ getCompanyLogoI redirectHttp "Acme" = logoUrlFor "Acme"
      ∧ ¬ getCompanyLogoI redirectHttp "Acme" = "/placeholder-logo.svg" := by
  refine ⟨?_, ?_, ?_⟩ <;> decide

/-- C9 as amended: both resolvers are total and never propagate a failure.
The walking / certifications variant returns either the URL derived from the
name or the placeholder.  The internships variant returns the placeholder or
— on an accepted (< 400) response — the request's final URL
`response.request.res.responseUrl`, which equals the derived URL only when no
redirect was followed; network failure, timeout, or a non-accepted status
always yield the placeholder.  The derived URL is the lower-cased,
whitespace-stripped name with `.com` appended. -/
theorem logo_resolver_amended (http : HttpOracle) (name : String) :
    (getCompanyLogoW http name = logoUrlFor name
        ∨ getCompanyLogoW http name = "/placeholder-logo.svg")
      ∧ (getCompanyLogoI http name = "/placeholder-logo.svg"
        ∨ ∃ r, http (logoUrlFor name) = Except.ok r ∧ r.status < 400
            ∧ getCompanyLogoI http name = r.responseUrl)
      ∧ (∀ err, http (logoUrlFor name) = Except.error err →
          getCompanyLogoW http name = "/placeholder-logo.svg"
            ∧ getCompanyLogoI http name = "/placeholder-logo.svg")
      ∧ (∀ r, http (logoUrlFor name) = Except.ok r → r.status ≠ 200 →
          getCompanyLogoW http name = "/placeholder-logo.svg")
      ∧ (∀ r, http (logoUrlFor name) = Except.ok r → 400 ≤ r.status →
          getCompanyLogoI http name = "/placeholder-logo.svg")
      ∧ (∀ r, http (logoUrlFor name) = Except.ok r → r.status < 400 →
          r.responseUrl = logoUrlFor name →
          getCompanyLogoI http name = logoUrlFor name)
      ∧ logoUrlFor "My Corp" = "https://logo.clearbit.com/mycorp.com" := by
  refine ⟨?_, ?_, ?_, ?_, ?_, ?_, by decide⟩
  · unfold getCompanyLogoW
    cases h : http (logoUrlFor name) with
    | error e => exact Or.inr rfl
    | ok r =>
        by_cases h5 : r.status < 500
        · by_cases h2 : r.status = 200
          · simp [h5, h2]
          · simp [h5, h2]
        · simp [h5]
  · cases h : http (logoUrlFor name) with
    | error e =>
        refine Or.inl ?_
        unfold getCompanyLogoI
        rw [h]
    | ok r =>
        by_cases h4 : r.status < 400
        · refine Or.inr ⟨r, rfl, h4, ?_⟩
          unfold getCompanyLogoI
          rw [h]
          dsimp only
          rw [if_pos h4]
        · refine Or.inl ?_
          unfold getCompanyLogoI
          rw [h]
          dsimp only
          rw [if_neg h4]
  · intro err herr
    unfold getCompanyLogoW getCompanyLogoI
    rw [herr]
    exact ⟨rfl, rfl⟩
  · intro r hr h200
    unfold getCompanyLogoW
    rw [hr]
    by_cases h5 : r.status < 500
    · simp [h5, h200]
    · simp [h5]
  · intro r hr h400
    unfold getCompanyLogoI
    rw [hr]
    dsimp only
    rw [if_neg (by omega)]
  · intro r hr h4 hurl
    unfold getCompanyLogoI
    rw [hr]
    dsimp only
    rw [if_pos h4, hurl]

end JobsServer

